import Mathlib

/-!
# Verification of the bistro `RemoteWorkers` registry

Shallow embedding of `bistro/remote/RemoteWorkers.h`: a registry of remote
workers offering round-robin selection (global and per-host), heartbeat
ingestion, staleness sweeps, and an initial-wait state machine.

The repository ships only the header.  Member function bodies present in the
header (`mutableWorkerOrAbort`, `mutableWorkerOrThrow`, `getWorker`,
`getNonConstWorker`, `getNextWorker` delegation, `getNextWorkerByHost`,
`workerPool`, `hostWorkerPool`, the constructor) are embedded from that
source.  Bodies that live in the missing `RemoteWorkers.cpp`
(`RoundRobinWorkerPool::getNextWorker`, `processHeartbeat`, `updateState`,
`updateInitialWait`, `initializeRunningTasks`, `mutableHostWorkerPool`) are
modelled from the specification, as marked on each definition.

C++ `std::unordered_map` is modelled as an association list with unique keys
(uniqueness carried as a hypothesis where needed); its iteration order is the
list order.  C++ `shared_ptr` sharing of one worker object between the global
pool and a host pool is modelled by updating every pool entry with a given
shard key in lock step.  Machine time (`time_t`) is modelled as `Nat`.
-/

/-- Health state of a remote worker (`RemoteWorkerState`): at least
new, healthy, suspected-lost and lost, per the data model. -/
inductive HealthState
  | new
  | healthy
  | suspectedLost
  | lost
deriving DecidableEq, Repr

/-- One remote worker record (`RemoteWorker`): recorded hostname,
last-heartbeat timestamp, health state, and running-task set.  The shard id
is carried by the pool key, exactly as the C++ pools map shard to worker. -/
structure RemoteWorker where
  hostname : String
  lastHeartbeat : Nat
  health : HealthState
  runningTasks : List String
deriving DecidableEq, Repr

/-- Heartbeat message (`cpp2::BistroWorker`), restricted to the fields the
registry logic reads: shard id and hostname. -/
structure BistroWorker where
  shard : String
  hostname : String
deriving DecidableEq, Repr

/-- Events appended to the update accumulator (`RemoteWorkerUpdate`):
worker-lost, worker-host-mismatch, initial-wait-ended. -/
inductive UpdateEvent
  | workerLost (shard : String)
  | hostMismatch (shard : String)
  | initialWaitEnded
deriving DecidableEq, Repr

/-- Association-list lookup with decidable string equality; the model of
`std::unordered_map::find`. -/
def lookupList {β : Type} (s : String) : List (String × β) → Option β
  | [] => none
  | kv :: rest => if kv.1 = s then some kv.2 else lookupList s rest

/-- `RemoteWorkers::RoundRobinWorkerPool`: a map of shard id to worker
(`members`, in iteration order) together with the rotation cursor
`nextShard` (a default-constructed `std::string`, i.e. `""`, before the
first selection) and the diagnostic pool name. -/
structure RoundRobinWorkerPool where
  name : String
  members : List (String × RemoteWorker)
  nextShard : String
deriving DecidableEq, Repr

/-- A fresh, empty pool, as built by the `RoundRobinWorkerPool` constructor. -/
def RoundRobinWorkerPool.empty (name : String) : RoundRobinWorkerPool :=
  ⟨name, [], ""⟩

/-- The shard keys of a pool, in iteration order. -/
def RoundRobinWorkerPool.keys (p : RoundRobinWorkerPool) : List String :=
  p.members.map Prod.fst

/-- The Bool test "this entry's key differs from the cursor". -/
def keyNe (cursor : String) (kv : String × RemoteWorker) : Bool :=
  kv.1 != cursor

/-- The entry of `p.members` immediately following the first entry whose key
is `cursor`, wrapping past the end to the front; `none` when no entry has key
`cursor`.  This is the successor step of the rotation. -/
def succAfter (cursor : String) (ms : List (String × RemoteWorker)) :
    Option (String × RemoteWorker) :=
  let pre := ms.takeWhile (keyNe cursor)
  match ms.dropWhile (keyNe cursor) with
  | [] => none
  | c :: rest => (rest ++ pre ++ [c]).head?

/-- Modelled from the spec: `RoundRobinWorkerPool::getNextWorker`, whose body
is in the missing `RemoteWorkers.cpp`.  Per the spec and the header doc
comment: an empty pool yields `none`; if the cursor shard is a current
member, select the member immediately following it in iteration order,
wrapping to the first member after the last; if the cursor shard is absent,
select an arbitrary current member (modelled deterministically as the first
member) as a fresh restart point; the selected shard becomes the new cursor
and its worker is returned. -/
def RoundRobinWorkerPool.getNextWorker (p : RoundRobinWorkerPool) :
    Option RemoteWorker × RoundRobinWorkerPool :=
  match succAfter p.nextShard p.members with
  | some kv => (some kv.2, { p with nextShard := kv.1 })
  | none =>
    match p.members with
    | [] => (none, p)
    | m0 :: _ => (some m0.2, { p with nextShard := m0.1 })

/-- Pool insertion (`std::unordered_map` key assignment): replace the value
in place when the key is present, append otherwise. -/
def RoundRobinWorkerPool.insert (s : String) (w : RemoteWorker)
    (p : RoundRobinWorkerPool) : RoundRobinWorkerPool :=
  if (lookupList s p.members).isSome then
    { p with members := p.members.map (fun kv => if kv.1 = s then (s, w) else kv) }
  else
    { p with members := p.members ++ [(s, w)] }

/-- Pool removal (`std::unordered_map::erase`): drop the entry with key `s`;
the cursor is deliberately left untouched, exactly as erasing from the base
map cannot touch `nextShard_`. -/
def RoundRobinWorkerPool.remove (s : String) (p : RoundRobinWorkerPool) :
    RoundRobinWorkerPool :=
  { p with members := p.members.filter (fun kv => kv.1 ≠ s) }

/-- One membership mutation on a pool, for stating properties over arbitrary
operation sequences. -/
inductive PoolOp
  | ins (shard : String) (w : RemoteWorker)
  | del (shard : String)
deriving DecidableEq, Repr

/-- Apply a sequence of membership mutations to a pool. -/
def applyPoolOps (ops : List PoolOp) (p : RoundRobinWorkerPool) :
    RoundRobinWorkerPool :=
  ops.foldl
    (fun q op =>
      match op with
      | .ins s w => q.insert s w
      | .del s => q.remove s) p

/-- The results of `count` consecutive `getNextWorker` calls, together with
the final pool state. -/
def RoundRobinWorkerPool.nexts (p : RoundRobinWorkerPool) :
    Nat → List (Option RemoteWorker) × RoundRobinWorkerPool
  | 0 => ([], p)
  | k + 1 =>
    let step := p.getNextWorker
    let rest := step.2.nexts k
    (step.1 :: rest.1, rest.2)

/-- The `RemoteWorkers` registry state: the initial-wait flag, the recorded
construction time, the global pool, and the hostname-to-pool map. -/
structure RemoteWorkers where
  inInitialWait : Bool
  startTime : Nat
  workerPool : RoundRobinWorkerPool
  hostToWorkerPool : List (String × RoundRobinWorkerPool)
deriving DecidableEq, Repr

/-- The `RemoteWorkers(start_time)` constructor: initial wait on, the given
start time, a global pool named `"all workers"`, and no host pools. -/
def RemoteWorkers.mk0 (startTime : Nat) : RemoteWorkers :=
  ⟨true, startTime, RoundRobinWorkerPool.empty "all workers", []⟩

/-- `RemoteWorkers::getNonConstWorker`, embedded from the header: look the
shard up in the global pool, `none` when absent. -/
def RemoteWorkers.getNonConstWorker (r : RemoteWorkers) (shard : String) :
    Option RemoteWorker :=
  lookupList shard r.workerPool.members

/-- `RemoteWorkers::getWorker`, embedded from the header: returns the result
of `getNonConstWorker`, `none` when there is no worker with this shard id. -/
def RemoteWorkers.getWorker (r : RemoteWorkers) (shard : String) :
    Option RemoteWorker :=
  r.getNonConstWorker shard

/-- Outcome of an operation that may terminate the process: a failed
`CHECK` aborts (uncatchable), unlike a thrown exception. -/
inductive AbortOr (α : Type)
  | abort (msg : String)
  | ok (a : α)
deriving DecidableEq, Repr

/-- `RemoteWorkers::mutableWorkerOrAbort`, embedded from the header:
`CHECK`-fails (process abort) with `"Unknown RemoteWorker: " + shard` when
the shard is unknown, otherwise yields the worker. -/
def RemoteWorkers.mutableWorkerOrAbort (r : RemoteWorkers) (shard : String) :
    AbortOr RemoteWorker :=
  match r.getNonConstWorker shard with
  | none => .abort ("Unknown RemoteWorker: " ++ shard)
  | some w => .ok w

/-- `RemoteWorkers::mutableWorkerOrThrow`, embedded from the header: throws
a `BistroException` (recoverable) with `"Unknown RemoteWorker: " + shard`
when the shard is unknown, otherwise yields the worker. -/
def RemoteWorkers.mutableWorkerOrThrow (r : RemoteWorkers) (shard : String) :
    Except String RemoteWorker :=
  match r.getNonConstWorker shard with
  | none => .error ("Unknown RemoteWorker: " ++ shard)
  | some w => .ok w

/-- Modelled from the spec: `updateInitialWait`, whose body is in the missing
`RemoteWorkers.cpp`.  While in initial wait, if the elapsed time since
construction exceeds the configured wait duration, clear the flag and append
exactly one initial-wait-ended event; once the flag is off the check is a
no-op. -/
def RemoteWorkers.updateInitialWait (r : RemoteWorkers)
    (now waitDuration : Nat) (acc : List UpdateEvent) :
    RemoteWorkers × List UpdateEvent :=
  if r.inInitialWait then
    if waitDuration < now - r.startTime then
      ({ r with inInitialWait := false }, acc ++ [.initialWaitEnded])
    else (r, acc)
  else (r, acc)

/-- Replace the worker stored under shard `s` in a pool by `f` of it; models
a mutation through the `shared_ptr` as seen by this pool. -/
def RoundRobinWorkerPool.mapWorker (s : String) (f : RemoteWorker → RemoteWorker)
    (p : RoundRobinWorkerPool) : RoundRobinWorkerPool :=
  { p with members := p.members.map (fun kv => if kv.1 = s then (kv.1, f kv.2) else kv) }

/-- Mutate the worker object with shard `s` in every pool at once: the model
of writing through the `shared_ptr<RemoteWorker>` shared by the global pool
and the host pools. -/
def RemoteWorkers.mapWorker (s : String) (f : RemoteWorker → RemoteWorker)
    (r : RemoteWorkers) : RemoteWorkers :=
  { r with
      workerPool := r.workerPool.mapWorker s f,
      hostToWorkerPool := r.hostToWorkerPool.map (fun hp => (hp.1, hp.2.mapWorker s f)) }

/-- Modelled from the spec: the pool-creating half of `mutableHostWorkerPool`
(body in the missing `RemoteWorkers.cpp`; the header documents it as "If
hostname isn't found, makes an empty worker pool").  Returns the registry
with a pool guaranteed to exist for `hostname`. -/
def RemoteWorkers.ensureHostPool (r : RemoteWorkers) (hostname : String) :
    RemoteWorkers :=
  match lookupList hostname r.hostToWorkerPool with
  | some _ => r
  | none =>
    { r with hostToWorkerPool :=
        r.hostToWorkerPool ++ [(hostname, RoundRobinWorkerPool.empty hostname)] }

/-- The host pool for `hostname` after `ensureHostPool`; the value half of
`mutableHostWorkerPool`. -/
def RemoteWorkers.hostPoolOf (r : RemoteWorkers) (hostname : String) :
    RoundRobinWorkerPool :=
  (lookupList hostname r.hostToWorkerPool).getD (RoundRobinWorkerPool.empty hostname)

/-- Write back a host pool under its hostname key; the model of mutating the
pool through the reference `mutableHostWorkerPool` returns. -/
def RemoteWorkers.setHostPool (r : RemoteWorkers) (hostname : String)
    (p : RoundRobinWorkerPool) : RemoteWorkers :=
  { r with hostToWorkerPool :=
      r.hostToWorkerPool.map (fun hp => if hp.1 = hostname then (hostname, p) else hp) }

/-- `RemoteWorkers::hostWorkerPool`, embedded from the header: delegates to
`mutableHostWorkerPool`, so it returns the (possibly freshly created, empty)
pool for the hostname, together with the registry state after the on-demand
creation. -/
def RemoteWorkers.hostWorkerPool (r : RemoteWorkers) (hostname : String) :
    RoundRobinWorkerPool × RemoteWorkers :=
  ((r.ensureHostPool hostname).hostPoolOf hostname, r.ensureHostPool hostname)

/-- `RemoteWorkers::workerPool`, embedded from the header: a const read of
the global pool, with no state change at all. -/
def RemoteWorkers.workerPoolAcc (r : RemoteWorkers) : RoundRobinWorkerPool :=
  r.workerPool

/-- `RemoteWorkers::getNextWorker`, embedded from the header: delegates to
the global pool's rotation. -/
def RemoteWorkers.getNextWorkerGlobal (r : RemoteWorkers) :
    Option RemoteWorker × RemoteWorkers :=
  let step := r.workerPool.getNextWorker
  (step.1, { r with workerPool := step.2 })

/-- `RemoteWorkers::getNextWorkerByHost`, embedded from the header:
`mutableHostWorkerPool(hostname).getNextWorker()` — ensure the host pool
exists, rotate it, write it back. -/
def RemoteWorkers.getNextWorkerByHost (r : RemoteWorkers) (hostname : String) :
    Option RemoteWorker × RemoteWorkers :=
  ((((r.ensureHostPool hostname).hostPoolOf hostname).getNextWorker).1,
    (r.ensureHostPool hostname).setHostPool hostname
      (((r.ensureHostPool hostname).hostPoolOf hostname).getNextWorker).2)

/-- Insert worker `w` under shard `s` into the host pool for hostname `h`,
creating that pool on first use. -/
def RemoteWorkers.insertIntoHostPool (r : RemoteWorkers) (h s : String)
    (w : RemoteWorker) : RemoteWorkers :=
  (r.ensureHostPool h).setHostPool h
    (((r.ensureHostPool h).hostPoolOf h).insert s w)

/-- The unseen-shard half of `processHeartbeat`: create a worker with the
message's hostname and health "new", insert it into the global pool and into
the host pool for the message's hostname. -/
def RemoteWorkers.registerNewWorker (r : RemoteWorkers) (now : Nat)
    (msg : BistroWorker) : RemoteWorkers :=
  ({ r with workerPool :=
      r.workerPool.insert msg.shard ⟨msg.hostname, now, .new, []⟩
   }).insertIntoHostPool msg.hostname msg.shard ⟨msg.hostname, now, .new, []⟩

/-- The seen-shard, same-hostname half of `processHeartbeat`: refresh the
heartbeat timestamp and advance health toward healthy, through the shared
worker object. -/
def RemoteWorkers.refreshWorker (r : RemoteWorkers) (now : Nat)
    (shard : String) : RemoteWorkers :=
  r.mapWorker shard (fun v => { v with lastHeartbeat := now, health := .healthy })

/-- Modelled from the spec: `processHeartbeat`, whose body is in the missing
`RemoteWorkers.cpp`.  Look up the shard: unseen — create a worker with the
message's hostname, health "new", insert it into the global pool and into
the pool for the message's hostname (created on first use); seen with the
same hostname — refresh the heartbeat timestamp and advance health toward
healthy; seen with a different hostname — record a host-mismatch event and
do not relocate the worker.  Then run the initial-wait check.  The optional
heartbeat response belongs to the worker-protocol layer and is not
modelled. -/
def RemoteWorkers.processHeartbeat (r : RemoteWorkers)
    (now waitDuration : Nat) (acc : List UpdateEvent) (msg : BistroWorker) :
    RemoteWorkers × List UpdateEvent :=
  match r.getNonConstWorker msg.shard with
  | none => (r.registerNewWorker now msg).updateInitialWait now waitDuration acc
  | some w =>
    if w.hostname = msg.hostname then
      (r.refreshWorker now msg.shard).updateInitialWait now waitDuration acc
    else
      r.updateInitialWait now waitDuration (acc ++ [.hostMismatch msg.shard])

/-- Mark a worker lost when its last heartbeat is older than the liveness
threshold and it is not already lost; otherwise leave it unchanged. -/
def markLost (now threshold : Nat) (w : RemoteWorker) : RemoteWorker :=
  if threshold < now - w.lastHeartbeat ∧ w.health ≠ .lost then
    { w with health := .lost }
  else w

/-- The shards of the global pool that a sweep at time `now` newly declares
lost: stale and not already lost. -/
def RemoteWorkers.newlyLost (r : RemoteWorkers) (now threshold : Nat) :
    List String :=
  (r.workerPool.members.filter
    (fun kv => threshold < now - kv.2.lastHeartbeat ∧ kv.2.health ≠ .lost)).map Prod.fst

/-- Mark every stale, not-yet-lost worker of a pool as lost. -/
def RoundRobinWorkerPool.sweep (now threshold : Nat)
    (p : RoundRobinWorkerPool) : RoundRobinWorkerPool :=
  { p with members := p.members.map (fun kv => (kv.1, markLost now threshold kv.2)) }

/-- The sweeping half of `updateState`: mark stale workers lost in every
pool at once (the mutation goes through the shared worker objects). -/
def RemoteWorkers.sweepLost (r : RemoteWorkers) (now threshold : Nat) :
    RemoteWorkers :=
  { r with
      workerPool := r.workerPool.sweep now threshold,
      hostToWorkerPool := r.hostToWorkerPool.map
        (fun (hp : String × RoundRobinWorkerPool) =>
          (hp.1, hp.2.sweep now threshold)) }

/-- Modelled from the spec: `updateState`, whose body is in the missing
`RemoteWorkers.cpp`.  Sweep every worker in the global pool; any whose last
heartbeat exceeds the liveness threshold transitions to "lost" (mutating the
shared object, hence every pool) and contributes one loss event;
already-lost workers are skipped.  Then run the initial-wait check.  No
worker is ever removed from any pool. -/
def RemoteWorkers.updateState (r : RemoteWorkers)
    (now threshold waitDuration : Nat) (acc : List UpdateEvent) :
    RemoteWorkers × List UpdateEvent :=
  (r.sweepLost now threshold).updateInitialWait now waitDuration
    (acc ++ (r.newlyLost now threshold).map UpdateEvent.workerLost)

/-- Modelled from the spec: `initializeRunningTasks`, whose body is in the
missing `RemoteWorkers.cpp`.  Requires the shard to be known (the C++
contract aborts otherwise); replaces the worker's recorded running-task set
with the report, mutating the shared object. -/
def RemoteWorkers.initializeRunningTasks (r : RemoteWorkers)
    (msg : BistroWorker) (runningTasks : List String) :
    AbortOr RemoteWorkers :=
  match r.mutableWorkerOrAbort msg.shard with
  | .abort m => .abort m
  | .ok _ => .ok (r.mapWorker msg.shard (fun v => { v with runningTasks := runningTasks }))


/-! ## Pool rotation lemmas -/

@[simp]
theorem keyNe_true_iff (cursor : String) (kv : String × RemoteWorker) :
    keyNe cursor kv = true ↔ kv.1 ≠ cursor := by
  simp [keyNe]

@[simp]
theorem keyNe_false_iff (cursor : String) (kv : String × RemoteWorker) :
    keyNe cursor kv = false ↔ kv.1 = cursor := by
  simp [keyNe]

theorem takeWhile_dropWhile_split (cursor : String)
    (u v : List (String × RemoteWorker)) (c : String × RemoteWorker)
    (hc : c.1 = cursor) (hu : ∀ x ∈ u, x.1 ≠ cursor) :
    (u ++ c :: v).takeWhile (keyNe cursor) = u ∧
    (u ++ c :: v).dropWhile (keyNe cursor) = c :: v := by
  induction u with
  | nil =>
    have hcf : keyNe cursor c = false := (keyNe_false_iff cursor c).2 hc
    simp [List.takeWhile_cons, List.dropWhile_cons, hcf]
  | cons a u ih =>
    have ha : keyNe cursor a = true := (keyNe_true_iff cursor a).2 (hu a (by simp))
    have ih' := ih (fun x hx => hu x (by simp [hx]))
    rw [List.cons_append, List.takeWhile_cons, List.dropWhile_cons, ha]
    simp only [ih'.1, ih'.2, and_self, if_true]

theorem succAfter_of_split (cursor : String)
    (u v : List (String × RemoteWorker)) (c : String × RemoteWorker)
    (hc : c.1 = cursor) (hu : ∀ x ∈ u, x.1 ≠ cursor) :
    succAfter cursor (u ++ c :: v) = (v ++ u ++ [c]).head? := by
  have h := takeWhile_dropWhile_split cursor u v c hc hu
  simp only [succAfter, h.1, h.2]

theorem succAfter_eq_none_iff (cursor : String)
    (ms : List (String × RemoteWorker)) :
    succAfter cursor ms = none ↔ cursor ∉ ms.map Prod.fst := by
  unfold succAfter
  constructor
  · intro h hmem
    rcases List.mem_map.1 hmem with ⟨kv, hkv, hkey⟩
    rcases hdw : ms.dropWhile (keyNe cursor) with _ | ⟨c, rest⟩
    · have hall := List.dropWhile_eq_nil_iff.1 hdw
      have := hall kv hkv
      rw [keyNe_true_iff] at this
      exact this hkey
    · simp only [hdw] at h
      simp at h
  · intro hmem
    rcases hdw : ms.dropWhile (keyNe cursor) with _ | ⟨c, rest⟩
    · simp [hdw]
    · exfalso
      have hsub : c ∈ ms := by
        have hmem2 : c ∈ ms.dropWhile (keyNe cursor) := by simp [hdw]
        exact (List.dropWhile_sublist (keyNe cursor)).mem hmem2
      have hkey : keyNe cursor c = false := by
        have hhd := List.head_dropWhile_not (keyNe cursor) (l := ms)
        rw [hdw] at hhd
        simpa using hhd (by simp)
      rw [keyNe_false_iff] at hkey
      exact hmem (List.mem_map.2 ⟨c, hsub, hkey⟩)

theorem succAfter_some_mem (cursor : String)
    (ms : List (String × RemoteWorker)) (kv : String × RemoteWorker)
    (h : succAfter cursor ms = some kv) : kv ∈ ms := by
  unfold succAfter at h
  rcases hdw : ms.dropWhile (keyNe cursor) with _ | ⟨c, rest⟩
  · simp [hdw] at h
  · simp only [hdw] at h
    have hmem : kv ∈ rest ++ ms.takeWhile (keyNe cursor) ++ [c] :=
      List.mem_of_mem_head? h
    have hms : ms = ms.takeWhile (keyNe cursor) ++ (c :: rest) := by
      rw [← hdw, List.takeWhile_append_dropWhile]
    rcases List.mem_append.1 hmem with h1 | h2
    · rcases List.mem_append.1 h1 with ha | hb
      · rw [hms]; exact List.mem_append.2 (Or.inr (by simp [ha]))
      · rw [hms]; exact List.mem_append.2 (Or.inl hb)
    · rw [hms]
      simp at h2
      exact List.mem_append.2 (Or.inr (by simp [h2]))

theorem getNextWorker_fst_none_iff (p : RoundRobinWorkerPool) :
    (p.getNextWorker).1 = none ↔ p.members = [] := by
  unfold RoundRobinWorkerPool.getNextWorker
  rcases hs : succAfter p.nextShard p.members with _ | kv
  · rcases hm : p.members with _ | ⟨m0, rest⟩
    · simp
    · simp
  · constructor
    · intro h; simp at h
    · intro h
      rw [h] at hs
      have : succAfter p.nextShard [] = none := by
        rw [succAfter_eq_none_iff]; simp
      rw [this] at hs; cases hs

theorem getNextWorker_members (p : RoundRobinWorkerPool) :
    (p.getNextWorker).2.members = p.members := by
  unfold RoundRobinWorkerPool.getNextWorker
  rcases hs : succAfter p.nextShard p.members with _ | kv
  · rcases hm : p.members with _ | ⟨m0, rest⟩ <;> simp [hm]
  · simp

theorem getNextWorker_name (p : RoundRobinWorkerPool) :
    (p.getNextWorker).2.name = p.name := by
  unfold RoundRobinWorkerPool.getNextWorker
  rcases hs : succAfter p.nextShard p.members with _ | kv
  · rcases hm : p.members with _ | ⟨m0, rest⟩ <;> simp [hm]
  · simp

theorem getNextWorker_some_spec (p : RoundRobinWorkerPool) (w : RemoteWorker)
    (h : (p.getNextWorker).1 = some w) :
    ∃ kv, kv ∈ p.members ∧ kv.2 = w ∧ (p.getNextWorker).2.nextShard = kv.1 := by
  unfold RoundRobinWorkerPool.getNextWorker at h ⊢
  rcases hs : succAfter p.nextShard p.members with _ | kv
  · rcases hm : p.members with _ | ⟨m0, rest⟩
    · rw [hs, hm] at h; cases h
    · rw [hs, hm] at h
      simp at h
      exact ⟨m0, by simp [hm], h, rfl⟩
  · rw [hs] at h
    simp at h
    exact ⟨kv, succAfter_some_mem _ _ _ hs, h, rfl⟩

theorem not_key_in_prefix (u v : List (String × RemoteWorker))
    (c : String × RemoteWorker)
    (hnd : ((u ++ c :: v).map Prod.fst).Nodup) :
    ∀ x ∈ u, x.1 ≠ c.1 := by
  intro x hx he
  rw [List.map_append] at hnd
  rcases List.nodup_append.1 hnd with ⟨h1, h2, hdisj⟩
  exact hdisj (List.mem_map_of_mem Prod.fst hx) (by simp [he])

theorem getNextWorker_split_cons (p : RoundRobinWorkerPool)
    (u v' : List (String × RemoteWorker)) (c w : String × RemoteWorker)
    (hm : p.members = u ++ c :: w :: v')
    (hnd : ((u ++ c :: w :: v').map Prod.fst).Nodup)
    (hc : p.nextShard = c.1) :
    p.getNextWorker = (some w.2, { p with nextShard := w.1 }) := by
  have hu := not_key_in_prefix u (w :: v') c hnd
  have hs : succAfter p.nextShard p.members = ((w :: v') ++ u ++ [c]).head? := by
    rw [hc, hm]
    exact succAfter_of_split c.1 u (w :: v') c rfl hu
  unfold RoundRobinWorkerPool.getNextWorker
  rw [hs]
  rfl

theorem getNextWorker_split_wrap (p : RoundRobinWorkerPool)
    (u' : List (String × RemoteWorker)) (c w : String × RemoteWorker)
    (hm : p.members = (w :: u') ++ [c])
    (hnd : (((w :: u') ++ [c]).map Prod.fst).Nodup)
    (hc : p.nextShard = c.1) :
    p.getNextWorker = (some w.2, { p with nextShard := w.1 }) := by
  have hu := not_key_in_prefix (w :: u') [] c (by simpa using hnd)
  have hs : succAfter p.nextShard p.members = ([] ++ (w :: u') ++ [c]).head? := by
    rw [hc, hm]
    exact succAfter_of_split c.1 (w :: u') [] c rfl hu
  unfold RoundRobinWorkerPool.getNextWorker
  rw [hs]
  rfl

theorem getNextWorker_split_single (p : RoundRobinWorkerPool)
    (c : String × RemoteWorker)
    (hm : p.members = [c]) (hc : p.nextShard = c.1) :
    p.getNextWorker = (some c.2, { p with nextShard := c.1 }) := by
  have hs : succAfter p.nextShard p.members = ([] ++ [] ++ [c]).head? := by
    rw [hc, hm]
    exact succAfter_of_split c.1 [] [] c rfl (by simp)
  unfold RoundRobinWorkerPool.getNextWorker
  rw [hs]
  rfl

theorem nexts_succ (p : RoundRobinWorkerPool) (k : Nat) :
    p.nexts (k + 1) =
      ((p.getNextWorker).1 :: ((p.getNextWorker).2.nexts k).1,
        ((p.getNextWorker).2.nexts k).2) := by
  rfl

theorem nexts_trace (k : Nat) :
    ∀ (p : RoundRobinWorkerPool) (u v : List (String × RemoteWorker))
      (c : String × RemoteWorker),
    p.members = u ++ c :: v →
    ((u ++ c :: v).map Prod.fst).Nodup →
    p.nextShard = c.1 →
    k ≤ (u ++ c :: v).length →
    (p.nexts k).1 = ((v ++ u ++ [c]).take k).map (fun kv => some kv.2) := by
  induction k with
  | zero =>
    intro p u v c _ _ _ _
    simp [RoundRobinWorkerPool.nexts]
  | succ k ih =>
    intro p u v c hm hnd hc hk
    rcases v with _ | ⟨w, v'⟩
    · rcases u with _ | ⟨w, u'⟩
      · have hstep := getNextWorker_split_single p c (by simpa using hm) hc
        have hk0 : k = 0 := by
          simp at hk
          omega
        subst hk0
        rw [nexts_succ, hstep]
        simp [RoundRobinWorkerPool.nexts]
      · have hstep := getNextWorker_split_wrap p u' c w (by simpa using hm)
          (by simpa using hnd) hc
        rw [nexts_succ, hstep]
        have hm' : ({ p with nextShard := w.1 } : RoundRobinWorkerPool).members
            = [] ++ w :: (u' ++ [c]) := by
          simpa using hm
        have hnd' : (([] ++ w :: (u' ++ [c])).map Prod.fst).Nodup := by
          simpa using hnd
        have hlen : k ≤ ([] ++ w :: (u' ++ [c])).length := by
          simp at hk ⊢
          omega
        have := ih { p with nextShard := w.1 } [] (u' ++ [c]) w hm' hnd' rfl hlen
        rw [this]
        have hklen : k ≤ (u' ++ [c]).length := by
          simp at hk ⊢
          omega
        have htake : ((u' ++ [c]) ++ [] ++ [w]).take k = (u' ++ [c]).take k := by
          simp only [List.append_nil]
          exact List.take_append_of_le_length hklen
        rw [htake]
        simp
    · have hstep := getNextWorker_split_cons p u v' c w hm hnd hc
      rw [nexts_succ, hstep]
      have hm' : ({ p with nextShard := w.1 } : RoundRobinWorkerPool).members
          = (u ++ [c]) ++ w :: v' := by
        simpa using hm
      have hnd' : (((u ++ [c]) ++ w :: v').map Prod.fst).Nodup := by
        simpa using hnd
      have hlen : k ≤ ((u ++ [c]) ++ w :: v').length := by
        simp at hk ⊢
        omega
      have := ih { p with nextShard := w.1 } (u ++ [c]) v' w hm' hnd' rfl hlen
      rw [this]
      have hklen : k ≤ (v' ++ u ++ [c]).length := by
        simp at hk ⊢
        omega
      have htake : (v' ++ (u ++ [c]) ++ [w]).take k = (v' ++ u ++ [c]).take k := by
        have : v' ++ (u ++ [c]) ++ [w] = (v' ++ u ++ [c]) ++ [w] := by simp
        rw [this]
        exact List.take_append_of_le_length hklen
      rw [htake]
      simp

theorem nexts_rotation (p : RoundRobinWorkerPool)
    (hnd : (p.members.map Prod.fst).Nodup) (hne : p.members ≠ []) :
    ∃ j, (p.nexts p.members.length).1
        = (p.members.rotate j).map (fun kv => some kv.2) := by
  by_cases hcur : p.nextShard ∈ p.members.map Prod.fst
  · rcases List.mem_map.1 hcur with ⟨kv, hkv, hkey⟩
    rcases List.append_of_mem hkv with ⟨u, v, huv⟩
    refine ⟨u.length + 1, ?_⟩
    have hnd' : ((u ++ kv :: v).map Prod.fst).Nodup := by rw [← huv]; exact hnd
    have htr := nexts_trace p.members.length p u v kv huv hnd' hkey.symm
      (by rw [huv])
    rw [htr]
    have hlen : (v ++ u ++ [kv]).length = p.members.length := by
      rw [huv]; simp; omega
    rw [← hlen, List.take_length]
    have hrot : p.members.rotate (u.length + 1) = v ++ u ++ [kv] := by
      have hle : u.length + 1 ≤ p.members.length := by
        rw [huv]; simp
      rw [List.rotate_eq_drop_append_take hle, huv]
      have h1 : u ++ kv :: v = (u ++ [kv]) ++ v := by simp
      rw [h1]
      have h2 : ((u ++ [kv]) ++ v).drop (u.length + 1) = v := by
        have : u.length + 1 = (u ++ [kv]).length := by simp
        rw [this, List.drop_left]
      have h3 : ((u ++ [kv]) ++ v).take (u.length + 1) = u ++ [kv] := by
        have : u.length + 1 = (u ++ [kv]).length := by simp
        rw [this, List.take_left]
      rw [h2, h3]
      simp
    rw [hrot]
  · refine ⟨0, ?_⟩
    rcases hm : p.members with _ | ⟨m, rest⟩
    · exact absurd hm hne
    · have hs : succAfter p.nextShard p.members = none := by
        rw [succAfter_eq_none_iff]
        exact hcur
      have hstep : p.getNextWorker = (some m.2, { p with nextShard := m.1 }) := by
        unfold RoundRobinWorkerPool.getNextWorker
        rw [hs, hm]
      simp only [List.length_cons]
      rw [nexts_succ, hstep]
      have hm' : ({ p with nextShard := m.1 } : RoundRobinWorkerPool).members
          = [] ++ m :: rest := by simpa using hm
      have hnd' : (([] ++ m :: rest).map Prod.fst).Nodup := by
        rw [hm] at hnd; simpa using hnd
      have htr := nexts_trace rest.length { p with nextShard := m.1 } [] rest m
        hm' hnd' rfl (by simp)
      rw [htr]
      have htake : ((rest ++ [] ++ [m]).take rest.length) = rest := by
        simp only [List.append_nil]
        rw [List.take_append_of_le_length (Nat.le_refl _), List.take_length]
      rw [htake, List.rotate_zero, hm]
      simp

theorem getNextWorker_some_of_ne_nil (p : RoundRobinWorkerPool)
    (hne : p.members ≠ []) :
    ∃ kv, kv ∈ p.members ∧ (p.getNextWorker).1 = some kv.2 ∧
      (p.getNextWorker).2.nextShard = kv.1 := by
  rcases ho : (p.getNextWorker).1 with _ | w
  · exact absurd ((getNextWorker_fst_none_iff p).1 ho) hne
  · rcases getNextWorker_some_spec p w ho with ⟨kv, h1, h2, h3⟩
    exact ⟨kv, h1, by simp [ho, h2], h3⟩

/-! ## Claim theorems for the rotating pool -/

/-- C5: for every sequence of insert and remove operations applied to a
fresh rotating pool, `getNextWorker` (`next()`) returns empty (`nullptr`)
if and only if the pool is currently empty. -/
theorem C5_next_none_iff_empty (ops : List PoolOp) (name : String) :
    ((applyPoolOps ops (RoundRobinWorkerPool.empty name)).getNextWorker).1 = none
      ↔ (applyPoolOps ops (RoundRobinWorkerPool.empty name)).members = [] :=
  getNextWorker_fst_none_iff _

/-- C4: on a non-empty pool whose cursor shard is not a current member
(never set, or removed), `getNextWorker` selects some current member and
stores it as the new cursor — it never faults (the model is a total
function); and after removing the member last returned, a further
`getNextWorker` yields a valid current member, or empty exactly when the
pool is then empty. -/
theorem C4_cursor_resilience (p : RoundRobinWorkerPool)
    (hne : p.members ≠ []) :
    (p.nextShard ∉ p.members.map Prod.fst →
      ∃ kv, kv ∈ p.members ∧ (p.getNextWorker).1 = some kv.2 ∧
        (p.getNextWorker).2.nextShard = kv.1) ∧
    (∀ q, q = ((p.getNextWorker).2).remove ((p.getNextWorker).2).nextShard →
      (((q.getNextWorker).1 = none) ↔ q.members = []) ∧
      (∀ w, (q.getNextWorker).1 = some w → w ∈ q.members.map Prod.snd)) := by
  constructor
  · intro _
    exact getNextWorker_some_of_ne_nil p hne
  · intro q _
    refine ⟨getNextWorker_fst_none_iff q, ?_⟩
    intro w hw
    rcases getNextWorker_some_spec q w hw with ⟨kv, h1, h2, _⟩
    exact List.mem_map.2 ⟨kv, h1, h2⟩

/-- C3: with `N` members left unchanged across `N` consecutive
`getNextWorker` calls, the returned sequence is the membership list rotated
by some offset — so each member is returned exactly once, in a cyclic order
determined solely by the current membership (the pool's iteration order),
independent of cursor history. -/
theorem C3_roundRobin_fairness (p : RoundRobinWorkerPool)
    (hnd : (p.members.map Prod.fst).Nodup) (hne : p.members ≠ []) :
    ∃ j, (p.nexts p.members.length).1
        = (p.members.rotate j).map (fun kv => some kv.2) ∧
      ((p.nexts p.members.length).1).Perm
        (p.members.map (fun kv => some kv.2)) := by
  rcases nexts_rotation p hnd hne with ⟨j, hj⟩
  exact ⟨j, hj, by rw [hj]; exact (List.rotate_perm _ _).map _⟩

/-- A two-member pool used to witness the pool claims on concrete input. -/
def poolAB : RoundRobinWorkerPool :=
  ⟨"test pool", [("a", ⟨"h1", 1, .new, []⟩), ("b", ⟨"h1", 2, .new, []⟩)], ""⟩

/-- Witness for C3 at the concrete two-member pool `poolAB`. -/
theorem C3_witness :
    ((poolAB.members.map Prod.fst).Nodup ∧ poolAB.members ≠ []) ∧
    (∃ j, (poolAB.nexts poolAB.members.length).1
        = (poolAB.members.rotate j).map (fun kv => some kv.2) ∧
      ((poolAB.nexts poolAB.members.length).1).Perm
        (poolAB.members.map (fun kv => some kv.2))) :=
  ⟨⟨by decide, by decide⟩, C3_roundRobin_fairness poolAB (by decide) (by decide)⟩

/-- Witness for C4 at the concrete two-member pool `poolAB`. -/
theorem C4_witness :
    (poolAB.members ≠ []) ∧
    ((poolAB.nextShard ∉ poolAB.members.map Prod.fst →
      ∃ kv, kv ∈ poolAB.members ∧ (poolAB.getNextWorker).1 = some kv.2 ∧
        (poolAB.getNextWorker).2.nextShard = kv.1) ∧
    (∀ q, q = ((poolAB.getNextWorker).2).remove ((poolAB.getNextWorker).2).nextShard →
      (((q.getNextWorker).1 = none) ↔ q.members = []) ∧
      (∀ w, (q.getNextWorker).1 = some w → w ∈ q.members.map Prod.snd))) :=
  ⟨by decide, C4_cursor_resilience poolAB (by decide)⟩

/-! ## Lookup family (embedded from the header) -/

/-- C6: the three lookups implement three distinct failure policies on the
same absence condition.  When `getNonConstWorker` finds nothing (unknown
shard): `getWorker` (`findWorker`) returns empty with no error,
`mutableWorkerOrThrow` (`requireWorkerOrFail`) signals a recoverable error,
and `mutableWorkerOrAbort` (`requireWorker`) terminates the process
(`CHECK` failure), both with the message `"Unknown RemoteWorker: " + shard`.
For a known shard all three return that worker. -/
theorem C6_lookup_policies (r : RemoteWorkers) (shard : String) :
    (r.getNonConstWorker shard = none →
      r.getWorker shard = none ∧
      r.mutableWorkerOrThrow shard = .error ("Unknown RemoteWorker: " ++ shard) ∧
      r.mutableWorkerOrAbort shard = .abort ("Unknown RemoteWorker: " ++ shard)) ∧
    (∀ w, r.getNonConstWorker shard = some w →
      r.getWorker shard = some w ∧
      r.mutableWorkerOrThrow shard = .ok w ∧
      r.mutableWorkerOrAbort shard = .ok w) := by
  constructor
  · intro h
    refine ⟨h, ?_, ?_⟩
    · unfold RemoteWorkers.mutableWorkerOrThrow
      rw [h]
    · unfold RemoteWorkers.mutableWorkerOrAbort
      rw [h]
  · intro w h
    refine ⟨h, ?_, ?_⟩
    · unfold RemoteWorkers.mutableWorkerOrThrow
      rw [h]
    · unfold RemoteWorkers.mutableWorkerOrAbort
      rw [h]

/-- A small concrete registry: one worker `"a"` on host `"h1"`, present in
the global pool and in the `"h1"` host pool, used to witness registry
claims. -/
def regA : RemoteWorkers :=
  ⟨true, 1000,
    ⟨"all workers", [("a", ⟨"h1", 1001, .new, []⟩)], ""⟩,
    [("h1", ⟨"h1", [("a", ⟨"h1", 1001, .new, []⟩)], ""⟩)]⟩

/-- Witness for C6 at the concrete registry `regA`: shard `"zz"` is unknown
(empty / recoverable error / process abort respectively) and shard `"a"` is
known (all three lookups return that worker). -/
theorem C6_witness :
    (regA.getNonConstWorker "zz" = none ∧
      (regA.getWorker "zz" = none ∧
       regA.mutableWorkerOrThrow "zz" = .error ("Unknown RemoteWorker: " ++ "zz") ∧
       regA.mutableWorkerOrAbort "zz" = .abort ("Unknown RemoteWorker: " ++ "zz"))) ∧
    (regA.getNonConstWorker "a" = some ⟨"h1", 1001, .new, []⟩ ∧
      (regA.getWorker "a" = some ⟨"h1", 1001, .new, []⟩ ∧
       regA.mutableWorkerOrThrow "a" = .ok ⟨"h1", 1001, .new, []⟩ ∧
       regA.mutableWorkerOrAbort "a" = .ok ⟨"h1", 1001, .new, []⟩)) :=
  ⟨⟨by decide, (C6_lookup_policies regA "zz").1 (by decide)⟩,
   ⟨by decide, (C6_lookup_policies regA "a").2 ⟨"h1", 1001, .new, []⟩ (by decide)⟩⟩

/-! ## Association-list lookup toolkit -/

theorem lookupList_append_self {β : Type} (s : String)
    (l : List (String × β)) (b : β) (h : lookupList s l = none) :
    lookupList s (l ++ [(s, b)]) = some b := by
  induction l with
  | nil => simp [lookupList]
  | cons kv rest ih =>
    by_cases hk : kv.1 = s
    · simp [lookupList, hk] at h
    · simp only [lookupList, List.cons_append, hk, if_false] at h ⊢
      exact ih h

theorem lookupList_append_ne {β : Type} (s h : String)
    (l : List (String × β)) (b : β) (hne : h ≠ s) :
    lookupList s (l ++ [(h, b)]) = lookupList s l := by
  induction l with
  | nil => simp [lookupList, hne]
  | cons kv rest ih =>
    by_cases hk : kv.1 = s
    · simp only [lookupList, List.cons_append, hk, if_true]
    · simp only [lookupList, List.cons_append, hk, if_false]
      simpa using ih

theorem lookupList_none_iff {β : Type} (s : String) (l : List (String × β)) :
    lookupList s l = none ↔ s ∉ l.map Prod.fst := by
  induction l with
  | nil => simp [lookupList]
  | cons kv rest ih =>
    by_cases hk : kv.1 = s
    · simp [lookupList, hk]
    · simp [lookupList, hk, ih, Ne.symm hk]

theorem lookupList_some_mem {β : Type} (s : String) (l : List (String × β))
    (b : β) (h : lookupList s l = some b) : (s, b) ∈ l := by
  induction l with
  | nil => simp [lookupList] at h
  | cons kv rest ih =>
    by_cases hk : kv.1 = s
    · simp only [lookupList, hk, if_true, Option.some_inj] at h
      have hkv : kv = (s, b) := Prod.ext hk h
      rw [← hkv]
      exact List.mem_cons_self _ _
    · simp only [lookupList, hk, if_false] at h
      exact List.mem_cons_of_mem _ (ih h)

/-! ## Host-pool accessor lemmas -/

theorem ensureHostPool_workerPool (r : RemoteWorkers) (h : String) :
    (r.ensureHostPool h).workerPool = r.workerPool := by
  unfold RemoteWorkers.ensureHostPool
  rcases lookupList h r.hostToWorkerPool with _ | p <;> rfl

theorem ensureHostPool_flag (r : RemoteWorkers) (h : String) :
    (r.ensureHostPool h).inInitialWait = r.inInitialWait ∧
    (r.ensureHostPool h).startTime = r.startTime := by
  unfold RemoteWorkers.ensureHostPool
  rcases lookupList h r.hostToWorkerPool with _ | p <;> exact ⟨rfl, rfl⟩

theorem ensureHostPool_of_some (r : RemoteWorkers) (h : String)
    (p : RoundRobinWorkerPool) (hl : lookupList h r.hostToWorkerPool = some p) :
    r.ensureHostPool h = r := by
  unfold RemoteWorkers.ensureHostPool
  rw [hl]

theorem ensureHostPool_of_none (r : RemoteWorkers) (h : String)
    (hl : lookupList h r.hostToWorkerPool = none) :
    r.ensureHostPool h =
      { r with hostToWorkerPool :=
          r.hostToWorkerPool ++ [(h, RoundRobinWorkerPool.empty h)] } := by
  unfold RemoteWorkers.ensureHostPool
  rw [hl]

theorem hostPoolOf_ensure (r : RemoteWorkers) (h : String) :
    (r.ensureHostPool h).hostPoolOf h
      = (lookupList h r.hostToWorkerPool).getD (RoundRobinWorkerPool.empty h) := by
  rcases hl : lookupList h r.hostToWorkerPool with _ | p
  · rw [ensureHostPool_of_none r h hl]
    unfold RemoteWorkers.hostPoolOf
    simp [lookupList_append_self h _ _ hl, hl]
  · rw [ensureHostPool_of_some r h p hl]
    unfold RemoteWorkers.hostPoolOf
    rw [hl]

theorem getNextWorker_empty_pool (name : String) :
    (RoundRobinWorkerPool.empty name).getNextWorker
      = (none, RoundRobinWorkerPool.empty name) := rfl

/-- C8: `getNextWorkerByHost` delegates to the host pool's rotation as
returned by `hostWorkerPool` (the `mutableHostWorkerPool` reference); for a
hostname with no pool yet, an empty pool is created on demand, the result is
empty, the call does not fault (the model is a total function), and
afterwards the hostname is bound to that empty pool. -/
theorem C8_nextByHost_delegates (r : RemoteWorkers) (hostname : String) :
    ((r.getNextWorkerByHost hostname).1
        = (((r.hostWorkerPool hostname).1).getNextWorker).1) ∧
    (lookupList hostname r.hostToWorkerPool = none →
      (r.getNextWorkerByHost hostname).1 = none ∧
      lookupList hostname ((r.getNextWorkerByHost hostname).2).hostToWorkerPool
        = some (RoundRobinWorkerPool.empty hostname)) := by
  constructor
  · rfl
  · intro hl
    unfold RemoteWorkers.getNextWorkerByHost
    have hpool := hostPoolOf_ensure r hostname
    rw [hl] at hpool
    simp only [Option.getD_none] at hpool
    constructor
    · rw [hpool, getNextWorker_empty_pool]
    · rw [hpool, getNextWorker_empty_pool]
      rw [ensureHostPool_of_none r hostname hl]
      unfold RemoteWorkers.setHostPool
      simp only [List.map_append]
      have h1 : (r.hostToWorkerPool.map
          (fun hp => if hp.1 = hostname then (hostname, RoundRobinWorkerPool.empty hostname) else hp))
          = r.hostToWorkerPool := by
        conv_rhs => rw [← List.map_id r.hostToWorkerPool]
        apply List.map_congr_left
        intro kv hkv
        have : kv.1 ≠ hostname := by
          intro he
          exact (lookupList_none_iff hostname r.hostToWorkerPool).1 hl
            (List.mem_map.2 ⟨kv, hkv, he⟩)
        simp [this]
      rw [h1]
      have h2 := lookupList_append_self hostname r.hostToWorkerPool
        (RoundRobinWorkerPool.empty hostname) hl
      simpa using h2

/-- Witness for C8 at `regA` and the fresh hostname `"h2"`. -/
theorem C8_witness :
    (lookupList "h2" regA.hostToWorkerPool = none) ∧
    (((regA.getNextWorkerByHost "h2").1
        = (((regA.hostWorkerPool "h2").1).getNextWorker).1) ∧
     ((regA.getNextWorkerByHost "h2").1 = none ∧
      lookupList "h2" ((regA.getNextWorkerByHost "h2").2).hostToWorkerPool
        = some (RoundRobinWorkerPool.empty "h2"))) :=
  ⟨by decide,
    (C8_nextByHost_delegates regA "h2").1,
    (C8_nextByHost_delegates regA "h2").2 (by decide)⟩

theorem map_set_fresh (l : List (String × RoundRobinWorkerPool)) (h : String)
    (p : RoundRobinWorkerPool) (hfresh : lookupList h l = none) :
    l.map (fun hp => if hp.1 = h then (h, p) else hp) = l := by
  conv_rhs => rw [← List.map_id l]
  apply List.map_congr_left
  intro kv hkv
  have hne : kv.1 ≠ h := by
    intro he
    exact (lookupList_none_iff h l).1 hfresh (List.mem_map.2 ⟨kv, hkv, he⟩)
  simp [hne]

/-- C9: the enumeration accessors do not read or mutate any rotation
cursor: `workerPool` is a pure read returning the global pool with no state
change, and after `hostWorkerPool` (which at most creates an empty pool for
the named host) the workers subsequently returned by the global rotation
and by every by-host rotation are exactly what they would have been. -/
theorem C9_enumeration_frame (r : RemoteWorkers) (h : String) :
    r.workerPoolAcc = r.workerPool ∧
    (((r.hostWorkerPool h).2).getNextWorkerGlobal).1 = (r.getNextWorkerGlobal).1 ∧
    (∀ h', (((r.hostWorkerPool h).2).getNextWorkerByHost h').1
        = (r.getNextWorkerByHost h').1) := by
  refine ⟨rfl, ?_, ?_⟩
  · show ((((r.hostWorkerPool h).2).workerPool).getNextWorker).1
        = ((r.workerPool).getNextWorker).1
    unfold RemoteWorkers.hostWorkerPool
    rw [ensureHostPool_workerPool]
  · intro h'
    rcases hl : lookupList h r.hostToWorkerPool with _ | p
    · have hst : (r.hostWorkerPool h).2
          = { r with hostToWorkerPool :=
              r.hostToWorkerPool ++ [(h, RoundRobinWorkerPool.empty h)] } := by
        unfold RemoteWorkers.hostWorkerPool
        exact ensureHostPool_of_none r h hl
      rw [hst]
      show ((({ r with hostToWorkerPool :=
          r.hostToWorkerPool ++ [(h, RoundRobinWorkerPool.empty h)]
        } : RemoteWorkers).ensureHostPool h').hostPoolOf h').getNextWorker.1
        = (((r.ensureHostPool h').hostPoolOf h').getNextWorker).1
      rw [hostPoolOf_ensure, hostPoolOf_ensure]
      by_cases hh : h' = h
      · subst hh
        rw [lookupList_append_self h' _ _ hl, hl]
        rfl
      · have heq : lookupList h' (r.hostToWorkerPool
            ++ [(h, RoundRobinWorkerPool.empty h)]) = lookupList h' r.hostToWorkerPool :=
          lookupList_append_ne h' h _ _ (fun he => hh he.symm)
        rw [heq]
    · have hst : (r.hostWorkerPool h).2 = r := by
        unfold RemoteWorkers.hostWorkerPool
        exact ensureHostPool_of_some r h p hl
      rw [hst]

/-- C10: calling `hostWorkerPool` or `getNextWorkerByHost` with a hostname
that has no pool yet inserts a fresh empty `RoundRobinWorkerPool` into the
hostname-to-pool map (the set of host pools grows), while the global pool
and every pre-existing host pool — members and cursors alike — are left
verbatim unchanged. -/
theorem C10_accessors_create_host_pool (r : RemoteWorkers) (h : String)
    (hfresh : lookupList h r.hostToWorkerPool = none) :
    (((r.hostWorkerPool h).2).hostToWorkerPool
        = r.hostToWorkerPool ++ [(h, RoundRobinWorkerPool.empty h)] ∧
      ((r.hostWorkerPool h).2).workerPool = r.workerPool) ∧
    (((r.getNextWorkerByHost h).2).hostToWorkerPool
        = r.hostToWorkerPool ++ [(h, RoundRobinWorkerPool.empty h)] ∧
      ((r.getNextWorkerByHost h).2).workerPool = r.workerPool) := by
  have hens := ensureHostPool_of_none r h hfresh
  constructor
  · constructor
    · show ((r.ensureHostPool h).hostToWorkerPool) = _
      rw [hens]
    · show ((r.ensureHostPool h).workerPool) = _
      rw [hens]
  · have hpool : (r.ensureHostPool h).hostPoolOf h = RoundRobinWorkerPool.empty h := by
      rw [hostPoolOf_ensure, hfresh]
      rfl
    constructor
    · show (((r.ensureHostPool h).setHostPool h
          (((r.ensureHostPool h).hostPoolOf h).getNextWorker).2).hostToWorkerPool) = _
      rw [hpool, getNextWorker_empty_pool]
      unfold RemoteWorkers.setHostPool
      rw [hens]
      simp only [List.map_append]
      rw [map_set_fresh r.hostToWorkerPool h _ hfresh]
      simp
    · show (((r.ensureHostPool h).setHostPool h
          (((r.ensureHostPool h).hostPoolOf h).getNextWorker).2).workerPool) = _
      unfold RemoteWorkers.setHostPool
      rw [hens]

/-- Witness for C10 at `regA` and the fresh hostname `"h2"`. -/
theorem C10_witness :
    (lookupList "h2" regA.hostToWorkerPool = none) ∧
    ((((regA.hostWorkerPool "h2").2).hostToWorkerPool
        = regA.hostToWorkerPool ++ [("h2", RoundRobinWorkerPool.empty "h2")] ∧
      ((regA.hostWorkerPool "h2").2).workerPool = regA.workerPool) ∧
    (((regA.getNextWorkerByHost "h2").2).hostToWorkerPool
        = regA.hostToWorkerPool ++ [("h2", RoundRobinWorkerPool.empty "h2")] ∧
      ((regA.getNextWorkerByHost "h2").2).workerPool = regA.workerPool)) :=
  ⟨by decide, C10_accessors_create_host_pool regA "h2" (by decide)⟩

/-! ## Initial-wait state machine over operation sequences -/

/-- One registry operation in a lifetime trace: a heartbeat or a
maintenance tick, with its clock and configuration inputs. -/
inductive RegOp
  | heartbeat (now waitDuration : Nat) (msg : BistroWorker)
  | tick (now threshold waitDuration : Nat)
deriving DecidableEq, Repr

/-- Run one registry operation, threading state and accumulator. -/
def runOp (op : RegOp) (st : RemoteWorkers × List UpdateEvent) :
    RemoteWorkers × List UpdateEvent :=
  match op with
  | .heartbeat now wd msg => st.1.processHeartbeat now wd st.2 msg
  | .tick now th wd => st.1.updateState now th wd st.2

/-- Run a sequence of registry operations. -/
def runOps (ops : List RegOp) (st : RemoteWorkers × List UpdateEvent) :
    RemoteWorkers × List UpdateEvent :=
  ops.foldl (fun acc op => runOp op acc) st

theorem runOps_cons (op : RegOp) (ops : List RegOp)
    (st : RemoteWorkers × List UpdateEvent) :
    runOps (op :: ops) st = runOps ops (runOp op st) := rfl

theorem updateInitialWait_count (r : RemoteWorkers) (now wd : Nat)
    (acc : List UpdateEvent)
    (h : acc.count .initialWaitEnded = (if r.inInitialWait then 0 else 1)) :
    ((r.updateInitialWait now wd acc).2).count .initialWaitEnded
      = (if ((r.updateInitialWait now wd acc).1).inInitialWait then 0 else 1) := by
  unfold RemoteWorkers.updateInitialWait
  by_cases hw : r.inInitialWait
  · rw [if_pos hw]
    by_cases hexp : wd < now - r.startTime
    · rw [if_pos hexp]
      rw [hw, if_pos rfl] at h
      simp [List.count_append, h]
    · rw [if_neg hexp]
      simpa [hw] using h
  · rw [if_neg hw]
    simpa [hw] using h

theorem updateInitialWait_flag_false (r : RemoteWorkers) (now wd : Nat)
    (acc : List UpdateEvent) (h : r.inInitialWait = false) :
    r.updateInitialWait now wd acc = (r, acc) := by
  unfold RemoteWorkers.updateInitialWait
  rw [h]
  simp

theorem registerNewWorker_flag (r : RemoteWorkers) (now : Nat)
    (msg : BistroWorker) :
    (r.registerNewWorker now msg).inInitialWait = r.inInitialWait := by
  unfold RemoteWorkers.registerNewWorker RemoteWorkers.insertIntoHostPool
    RemoteWorkers.setHostPool
  exact (ensureHostPool_flag _ msg.hostname).1

theorem processHeartbeat_none_eq (r : RemoteWorkers) (now wd : Nat)
    (acc : List UpdateEvent) (msg : BistroWorker)
    (hl : r.getNonConstWorker msg.shard = none) :
    r.processHeartbeat now wd acc msg
      = (r.registerNewWorker now msg).updateInitialWait now wd acc := by
  unfold RemoteWorkers.processHeartbeat
  rw [hl]

theorem processHeartbeat_same_eq (r : RemoteWorkers) (now wd : Nat)
    (acc : List UpdateEvent) (msg : BistroWorker) (w : RemoteWorker)
    (hl : r.getNonConstWorker msg.shard = some w)
    (hh : w.hostname = msg.hostname) :
    r.processHeartbeat now wd acc msg
      = (r.refreshWorker now msg.shard).updateInitialWait now wd acc := by
  unfold RemoteWorkers.processHeartbeat
  rw [hl]
  simp [hh]

theorem processHeartbeat_mismatch_eq (r : RemoteWorkers) (now wd : Nat)
    (acc : List UpdateEvent) (msg : BistroWorker) (w : RemoteWorker)
    (hl : r.getNonConstWorker msg.shard = some w)
    (hh : w.hostname ≠ msg.hostname) :
    r.processHeartbeat now wd acc msg
      = r.updateInitialWait now wd (acc ++ [.hostMismatch msg.shard]) := by
  unfold RemoteWorkers.processHeartbeat
  rw [hl]
  simp [hh]

theorem processHeartbeat_as_uiw (r : RemoteWorkers) (now wd : Nat)
    (acc : List UpdateEvent) (msg : BistroWorker) :
    ∃ (r' : RemoteWorkers) (acc' : List UpdateEvent),
      r.processHeartbeat now wd acc msg = r'.updateInitialWait now wd acc' ∧
      r'.inInitialWait = r.inInitialWait ∧
      acc'.count .initialWaitEnded = acc.count .initialWaitEnded := by
  rcases hl : r.getNonConstWorker msg.shard with _ | w
  · exact ⟨r.registerNewWorker now msg, acc,
      processHeartbeat_none_eq r now wd acc msg hl,
      registerNewWorker_flag r now msg, rfl⟩
  · by_cases hh : w.hostname = msg.hostname
    · exact ⟨r.refreshWorker now msg.shard, acc,
        processHeartbeat_same_eq r now wd acc msg w hl hh, rfl, rfl⟩
    · refine ⟨r, acc ++ [.hostMismatch msg.shard],
        processHeartbeat_mismatch_eq r now wd acc msg w hl hh, rfl, ?_⟩
      simp [List.count_append]

theorem updateState_as_uiw (r : RemoteWorkers) (now th wd : Nat)
    (acc : List UpdateEvent) :
    ∃ (r' : RemoteWorkers) (acc' : List UpdateEvent),
      r.updateState now th wd acc = r'.updateInitialWait now wd acc' ∧
      r'.inInitialWait = r.inInitialWait ∧
      acc'.count .initialWaitEnded = acc.count .initialWaitEnded := by
  refine ⟨r.sweepLost now th,
    acc ++ (r.newlyLost now th).map UpdateEvent.workerLost, rfl, rfl, ?_⟩
  simp only [List.count_append, Nat.add_right_eq_self]
  rw [List.count_eq_zero]
  intro hmem
  rcases List.mem_map.1 hmem with ⟨s, _, habs⟩
  cases habs

theorem runOp_inv (op : RegOp) (st : RemoteWorkers × List UpdateEvent)
    (h : st.2.count .initialWaitEnded = (if st.1.inInitialWait then 0 else 1)) :
    ((runOp op st).2).count .initialWaitEnded
      = (if ((runOp op st).1).inInitialWait then 0 else 1) := by
  cases op with
  | heartbeat now wd msg =>
    rcases processHeartbeat_as_uiw st.1 now wd st.2 msg with ⟨r', acc', heq, hf, hc⟩
    show ((st.1.processHeartbeat now wd st.2 msg).2).count .initialWaitEnded
      = (if ((st.1.processHeartbeat now wd st.2 msg).1).inInitialWait then 0 else 1)
    rw [heq]
    exact updateInitialWait_count r' now wd acc' (by rw [hc, hf]; exact h)
  | tick now th wd =>
    rcases updateState_as_uiw st.1 now th wd st.2 with ⟨r', acc', heq, hf, hc⟩
    show ((st.1.updateState now th wd st.2).2).count .initialWaitEnded
      = (if ((st.1.updateState now th wd st.2).1).inInitialWait then 0 else 1)
    rw [heq]
    exact updateInitialWait_count r' now wd acc' (by rw [hc, hf]; exact h)

theorem runOps_inv (ops : List RegOp) (st : RemoteWorkers × List UpdateEvent)
    (h : st.2.count .initialWaitEnded = (if st.1.inInitialWait then 0 else 1)) :
    ((runOps ops st).2).count .initialWaitEnded
      = (if ((runOps ops st).1).inInitialWait then 0 else 1) := by
  induction ops generalizing st with
  | nil => exact h
  | cons op rest ih =>
    rw [runOps_cons]
    exact ih (runOp op st) (runOp_inv op st h)

theorem runOp_flag_false (op : RegOp) (st : RemoteWorkers × List UpdateEvent)
    (h : st.1.inInitialWait = false) :
    ((runOp op st).1).inInitialWait = false ∧
    ((runOp op st).2).count .initialWaitEnded = st.2.count .initialWaitEnded := by
  cases op with
  | heartbeat now wd msg =>
    rcases processHeartbeat_as_uiw st.1 now wd st.2 msg with ⟨r', acc', heq, hf, hc⟩
    have hf' : r'.inInitialWait = false := by rw [hf, h]
    have := updateInitialWait_flag_false r' now wd acc' hf'
    constructor
    · show ((st.1.processHeartbeat now wd st.2 msg).1).inInitialWait = false
      rw [heq, this]
      exact hf'
    · show ((st.1.processHeartbeat now wd st.2 msg).2).count .initialWaitEnded = _
      rw [heq, this]
      exact hc
  | tick now th wd =>
    rcases updateState_as_uiw st.1 now th wd st.2 with ⟨r', acc', heq, hf, hc⟩
    have hf' : r'.inInitialWait = false := by rw [hf, h]
    have := updateInitialWait_flag_false r' now wd acc' hf'
    constructor
    · show ((st.1.updateState now th wd st.2).1).inInitialWait = false
      rw [heq, this]
      exact hf'
    · show ((st.1.updateState now th wd st.2).2).count .initialWaitEnded = _
      rw [heq, this]
      exact hc

theorem runOps_flag_false (ops : List RegOp) (st : RemoteWorkers × List UpdateEvent)
    (h : st.1.inInitialWait = false) :
    ((runOps ops st).1).inInitialWait = false ∧
    ((runOps ops st).2).count .initialWaitEnded = st.2.count .initialWaitEnded := by
  induction ops generalizing st with
  | nil => exact ⟨h, rfl⟩
  | cons op rest ih =>
    rw [runOps_cons]
    rcases runOp_flag_false op st h with ⟨h1, h2⟩
    rcases ih (runOp op st) h1 with ⟨h3, h4⟩
    exact ⟨h3, by rw [h4, h2]⟩

/-- C2: the initial-wait flag starts true at construction; across every
lifetime trace of `processHeartbeat` and `updateState` calls the "initial
wait ended" event appears in the update accumulator at most once; once that
event has been emitted the flag no longer reports waiting; and once the
flag is off, any further operations leave it off and append no further
initial-wait-ended event. -/
theorem C2_initial_wait_monotone (t : Nat) (ops more : List RegOp) :
    (RemoteWorkers.mk0 t).inInitialWait = true ∧
    ((runOps ops (RemoteWorkers.mk0 t, [])).2).count .initialWaitEnded ≤ 1 ∧
    (((runOps ops (RemoteWorkers.mk0 t, [])).2).count .initialWaitEnded = 1 →
      ((runOps ops (RemoteWorkers.mk0 t, [])).1).inInitialWait = false) ∧
    (((runOps ops (RemoteWorkers.mk0 t, [])).1).inInitialWait = false →
      ((runOps more (runOps ops (RemoteWorkers.mk0 t, []))).1).inInitialWait = false ∧
      ((runOps more (runOps ops (RemoteWorkers.mk0 t, []))).2).count .initialWaitEnded
        = ((runOps ops (RemoteWorkers.mk0 t, [])).2).count .initialWaitEnded) := by
  have h0 : (([] : List UpdateEvent)).count UpdateEvent.initialWaitEnded
      = (if (RemoteWorkers.mk0 t).inInitialWait then 0 else 1) := by
    simp [RemoteWorkers.mk0]
  have hinv := runOps_inv ops (RemoteWorkers.mk0 t, []) h0
  refine ⟨rfl, ?_, ?_, ?_⟩
  · rw [hinv]
    split
    · exact Nat.zero_le 1
    · exact Nat.le_refl 1
  · intro h1
    cases hb : ((runOps ops (RemoteWorkers.mk0 t, [])).1).inInitialWait
    · rfl
    · rw [hb, if_pos rfl] at hinv
      rw [hinv] at h1
      cases h1
  · intro hf
    exact runOps_flag_false more _ hf

/-- Witness for C2: the spec scenario — a registry built at time 1000 with
wait duration 30; one maintenance tick at 1031 and a later one at 1040. -/
theorem C2_witness :
    (RemoteWorkers.mk0 1000).inInitialWait = true ∧
    ((runOps [RegOp.tick 1031 60 30] (RemoteWorkers.mk0 1000, [])).2).count
        .initialWaitEnded ≤ 1 ∧
    (((runOps [RegOp.tick 1031 60 30] (RemoteWorkers.mk0 1000, [])).2).count
        .initialWaitEnded = 1 →
      ((runOps [RegOp.tick 1031 60 30]
        (RemoteWorkers.mk0 1000, [])).1).inInitialWait = false) ∧
    (((runOps [RegOp.tick 1031 60 30]
        (RemoteWorkers.mk0 1000, [])).1).inInitialWait = false →
      ((runOps [RegOp.tick 1040 60 30] (runOps [RegOp.tick 1031 60 30]
        (RemoteWorkers.mk0 1000, []))).1).inInitialWait = false ∧
      ((runOps [RegOp.tick 1040 60 30] (runOps [RegOp.tick 1031 60 30]
        (RemoteWorkers.mk0 1000, []))).2).count .initialWaitEnded
        = ((runOps [RegOp.tick 1031 60 30]
            (RemoteWorkers.mk0 1000, [])).2).count .initialWaitEnded) :=
  C2_initial_wait_monotone 1000 [RegOp.tick 1031 60 30] [RegOp.tick 1040 60 30]

/-! ## updateState sweep lemmas -/

theorem updateInitialWait_pools (r : RemoteWorkers) (now wd : Nat)
    (acc : List UpdateEvent) :
    ((r.updateInitialWait now wd acc).1).workerPool = r.workerPool ∧
    ((r.updateInitialWait now wd acc).1).hostToWorkerPool = r.hostToWorkerPool := by
  unfold RemoteWorkers.updateInitialWait
  by_cases hw : r.inInitialWait
  · rw [if_pos hw]
    by_cases hexp : wd < now - r.startTime
    · rw [if_pos hexp]
      exact ⟨rfl, rfl⟩
    · rw [if_neg hexp]
      exact ⟨rfl, rfl⟩
  · rw [if_neg hw]
    exact ⟨rfl, rfl⟩

theorem updateInitialWait_acc (r : RemoteWorkers) (now wd : Nat)
    (acc : List UpdateEvent) :
    (r.updateInitialWait now wd acc).2 = acc ∨
    (r.updateInitialWait now wd acc).2 = acc ++ [.initialWaitEnded] := by
  unfold RemoteWorkers.updateInitialWait
  by_cases hw : r.inInitialWait
  · rw [if_pos hw]
    by_cases hexp : wd < now - r.startTime
    · rw [if_pos hexp]
      exact Or.inr rfl
    · rw [if_neg hexp]
      exact Or.inl rfl
  · rw [if_neg hw]
    exact Or.inl rfl

theorem markLost_lastHeartbeat (now th : Nat) (w : RemoteWorker) :
    (markLost now th w).lastHeartbeat = w.lastHeartbeat := by
  unfold markLost
  by_cases hc : th < now - w.lastHeartbeat ∧ w.health ≠ .lost
  · rw [if_pos hc]
  · rw [if_neg hc]

theorem markLost_stale_lost (now th : Nat) (w : RemoteWorker)
    (h : th < now - w.lastHeartbeat) : (markLost now th w).health = .lost := by
  unfold markLost
  by_cases hc : th < now - w.lastHeartbeat ∧ w.health ≠ .lost
  · rw [if_pos hc]
  · rw [if_neg hc]
    by_contra hne
    exact hc ⟨h, hne⟩

theorem sweep_keys (now th : Nat) (p : RoundRobinWorkerPool) :
    (p.sweep now th).members.map Prod.fst = p.members.map Prod.fst := by
  unfold RoundRobinWorkerPool.sweep
  simp

theorem updateState_workerPool (r : RemoteWorkers) (now th wd : Nat)
    (acc : List UpdateEvent) :
    ((r.updateState now th wd acc).1).workerPool.members
      = r.workerPool.members.map (fun kv => (kv.1, markLost now th kv.2)) := by
  unfold RemoteWorkers.updateState
  rw [(updateInitialWait_pools _ _ _ _).1]
  rfl

theorem updateState_hostPools (r : RemoteWorkers) (now th wd : Nat)
    (acc : List UpdateEvent) :
    ((r.updateState now th wd acc).1).hostToWorkerPool
      = r.hostToWorkerPool.map
          (fun hp => (hp.1, hp.2.sweep now th)) := by
  unfold RemoteWorkers.updateState
  rw [(updateInitialWait_pools _ _ _ _).2]
  rfl

theorem newlyLost_nodup (r : RemoteWorkers) (now th : Nat)
    (hwf : (r.workerPool.members.map Prod.fst).Nodup) :
    (r.newlyLost now th).Nodup := by
  unfold RemoteWorkers.newlyLost
  exact hwf.sublist ((List.filter_sublist _).map Prod.fst)

theorem newlyLost_complete (r : RemoteWorkers) (now th : Nat) :
    ∀ kv ∈ r.workerPool.members, th < now - kv.2.lastHeartbeat →
      kv.2.health ≠ .lost → kv.1 ∈ r.newlyLost now th := by
  intro kv hkv hstale hlost
  unfold RemoteWorkers.newlyLost
  refine List.mem_map.2 ⟨kv, ?_, rfl⟩
  rw [List.mem_filter]
  exact ⟨hkv, by simp [hstale, hlost]⟩

theorem newlyLost_not_lost (r : RemoteWorkers) (now th : Nat)
    (hwf : (r.workerPool.members.map Prod.fst).Nodup) :
    ∀ kv ∈ r.workerPool.members, kv.2.health = .lost →
      kv.1 ∉ r.newlyLost now th := by
  intro kv hkv hlost hmem
  unfold RemoteWorkers.newlyLost at hmem
  rcases List.mem_map.1 hmem with ⟨kv2, hkv2, hkey⟩
  rw [List.mem_filter] at hkv2
  have heq : kv2 = kv :=
    List.inj_on_of_nodup_map hwf (hkv2.1) hkv hkey
  rw [heq] at hkv2
  simp [hlost] at hkv2

/-- C7: `updateState` sweeps the global pool: after the call every worker
whose heartbeat exceeds the liveness threshold is in the "lost" state; the
accumulator gains exactly one loss event per newly-lost shard (the
newly-lost shards are exactly the stale, not-already-lost ones, without
duplicates), possibly followed by the initial-wait event; already-lost
workers are never re-reported, in this call or by any later `updateState`;
and no worker is removed from the global pool or from any host pool. -/
theorem C7_updateState_loss_sweep (r : RemoteWorkers) (now th wd : Nat)
    (acc : List UpdateEvent)
    (hwf : (r.workerPool.members.map Prod.fst).Nodup) :
    (∀ kv ∈ ((r.updateState now th wd acc).1).workerPool.members,
        th < now - kv.2.lastHeartbeat → kv.2.health = .lost) ∧
    ((r.newlyLost now th).Nodup ∧
      (∀ kv ∈ r.workerPool.members, th < now - kv.2.lastHeartbeat →
        kv.2.health ≠ .lost → kv.1 ∈ r.newlyLost now th) ∧
      ((r.updateState now th wd acc).2
          = acc ++ (r.newlyLost now th).map UpdateEvent.workerLost ∨
        (r.updateState now th wd acc).2
          = acc ++ (r.newlyLost now th).map UpdateEvent.workerLost
              ++ [UpdateEvent.initialWaitEnded])) ∧
    (∀ kv ∈ r.workerPool.members, kv.2.health = .lost →
        kv.1 ∉ r.newlyLost now th) ∧
    (∀ now2 th2 wd2 acc2, ∃ d,
        (((r.updateState now th wd acc).1).updateState now2 th2 wd2 acc2).2
          = acc2 ++ d ∧
        ∀ kv ∈ ((r.updateState now th wd acc).1).workerPool.members,
          kv.2.health = .lost → UpdateEvent.workerLost kv.1 ∉ d) ∧
    (((r.updateState now th wd acc).1).workerPool.members.map Prod.fst
        = r.workerPool.members.map Prod.fst ∧
      ((r.updateState now th wd acc).1).hostToWorkerPool
        = r.hostToWorkerPool.map (fun hp => (hp.1, hp.2.sweep now th)) ∧
      ∀ p : RoundRobinWorkerPool,
        (p.sweep now th).members.map Prod.fst = p.members.map Prod.fst) := by
  have hwp := updateState_workerPool r now th wd acc
  refine ⟨?_, ⟨newlyLost_nodup r now th hwf, newlyLost_complete r now th, ?_⟩,
    newlyLost_not_lost r now th hwf, ?_, ?_, updateState_hostPools r now th wd acc,
    fun p => sweep_keys now th p⟩
  · intro kv hkv hstale
    rw [hwp] at hkv
    rcases List.mem_map.1 hkv with ⟨kv0, _, hkv0⟩
    rw [← hkv0] at hstale ⊢
    rw [markLost_lastHeartbeat] at hstale
    exact markLost_stale_lost now th kv0.2 hstale
  · exact updateInitialWait_acc _ now wd _
  · intro now2 th2 wd2 acc2
    set r1 := (r.updateState now th wd acc).1 with hr1
    have hwf1 : (r1.workerPool.members.map Prod.fst).Nodup := by
      rw [hwp]
      simpa using hwf
    rcases updateInitialWait_acc (r1.sweepLost now2 th2) now2 wd2
        (acc2 ++ (r1.newlyLost now2 th2).map .workerLost) with hA | hA
    · refine ⟨(r1.newlyLost now2 th2).map .workerLost, hA, ?_⟩
      intro kv hkv hlost hmem
      rcases List.mem_map.1 hmem with ⟨s, hs, hwl⟩
      cases hwl
      exact newlyLost_not_lost r1 now2 th2 hwf1 kv hkv hlost hs
    · refine ⟨(r1.newlyLost now2 th2).map .workerLost ++ [.initialWaitEnded], ?_, ?_⟩
      · show ((r1.sweepLost now2 th2).updateInitialWait now2 wd2
            (acc2 ++ (r1.newlyLost now2 th2).map .workerLost)).2
          = acc2 ++ ((r1.newlyLost now2 th2).map .workerLost ++ [.initialWaitEnded])
        rw [hA, List.append_assoc]
      · intro kv hkv hlost hmem
        rcases List.mem_append.1 hmem with hm | hm
        · rcases List.mem_map.1 hm with ⟨s, hs, hwl⟩
          cases hwl
          exact newlyLost_not_lost r1 now2 th2 hwf1 kv hkv hlost hs
        · simp at hm
  · rw [hwp]
    simp

/-- Witness for C7: the sweep at time 2000 with threshold 60 on `regA`
(worker `"a"`, last heartbeat 1001, not lost). -/
theorem C7_witness :
    ((regA.workerPool.members.map Prod.fst).Nodup) ∧
    ((∀ kv ∈ ((regA.updateState 2000 60 30 []).1).workerPool.members,
        60 < 2000 - kv.2.lastHeartbeat → kv.2.health = .lost) ∧
    ((regA.newlyLost 2000 60).Nodup ∧
      (∀ kv ∈ regA.workerPool.members, 60 < 2000 - kv.2.lastHeartbeat →
        kv.2.health ≠ .lost → kv.1 ∈ regA.newlyLost 2000 60) ∧
      ((regA.updateState 2000 60 30 []).2
          = [] ++ (regA.newlyLost 2000 60).map UpdateEvent.workerLost ∨
        (regA.updateState 2000 60 30 []).2
          = [] ++ (regA.newlyLost 2000 60).map UpdateEvent.workerLost
              ++ [UpdateEvent.initialWaitEnded])) ∧
    (∀ kv ∈ regA.workerPool.members, kv.2.health = .lost →
        kv.1 ∉ regA.newlyLost 2000 60) ∧
    (∀ now2 th2 wd2 acc2, ∃ d,
        (((regA.updateState 2000 60 30 []).1).updateState now2 th2 wd2 acc2).2
          = acc2 ++ d ∧
        ∀ kv ∈ ((regA.updateState 2000 60 30 []).1).workerPool.members,
          kv.2.health = .lost → UpdateEvent.workerLost kv.1 ∉ d) ∧
    (((regA.updateState 2000 60 30 []).1).workerPool.members.map Prod.fst
        = regA.workerPool.members.map Prod.fst ∧
      ((regA.updateState 2000 60 30 []).1).hostToWorkerPool
        = regA.hostToWorkerPool.map (fun hp => (hp.1, hp.2.sweep 2000 60)) ∧
      ∀ p : RoundRobinWorkerPool,
        (p.sweep 2000 60).members.map Prod.fst = p.members.map Prod.fst)) :=
  ⟨by decide, C7_updateState_loss_sweep regA 2000 60 30 [] (by decide)⟩

/-! ## The two-level consistency invariant -/

/-- Structural well-formedness of the registry, as guaranteed by
`std::unordered_map`: unique shard keys in the global pool, unique hostname
keys, and unique shard keys within each host pool. -/
def RemoteWorkers.Wf (r : RemoteWorkers) : Prop :=
  (r.workerPool.members.map Prod.fst).Nodup ∧
  (r.hostToWorkerPool.map Prod.fst).Nodup ∧
  ∀ hp ∈ r.hostToWorkerPool, (hp.2.members.map Prod.fst).Nodup

/-- The two-level consistency invariant: every worker entry of a host pool
is present in the global pool under the same shard id with the same worker
object, its recorded hostname equals that host pool's key, and a shard id
appears in at most one host pool. -/
def RemoteWorkers.Consistent (r : RemoteWorkers) : Prop :=
  (∀ hp ∈ r.hostToWorkerPool, ∀ kv ∈ hp.2.members,
      kv ∈ r.workerPool.members ∧ kv.2.hostname = hp.1) ∧
  (∀ hp1 ∈ r.hostToWorkerPool, ∀ hp2 ∈ r.hostToWorkerPool,
      ∀ s ∈ hp1.2.members.map Prod.fst,
        s ∈ hp2.2.members.map Prod.fst → hp1.1 = hp2.1)

theorem wf_transfer (r r' : RemoteWorkers)
    (h1 : r'.workerPool = r.workerPool)
    (h2 : r'.hostToWorkerPool = r.hostToWorkerPool)
    (hw : r.Wf) : r'.Wf := by
  unfold RemoteWorkers.Wf at hw ⊢
  rw [h1, h2]
  exact hw

theorem consistent_transfer (r r' : RemoteWorkers)
    (h1 : r'.workerPool = r.workerPool)
    (h2 : r'.hostToWorkerPool = r.hostToWorkerPool)
    (hc : r.Consistent) : r'.Consistent := by
  unfold RemoteWorkers.Consistent at hc ⊢
  rw [h1, h2]
  exact hc

/-- Transform every pool entry of every pool (global and host) by `t`;
common shape of the shared-object mutations `mapWorker` and `sweepLost`. -/
def RemoteWorkers.mapEntries (t : String × RemoteWorker → String × RemoteWorker)
    (r : RemoteWorkers) : RemoteWorkers :=
  { r with
      workerPool := { r.workerPool with members := r.workerPool.members.map t },
      hostToWorkerPool := r.hostToWorkerPool.map
        (fun hp => (hp.1, { hp.2 with members := hp.2.members.map t })) }

theorem mapWorker_eq_mapEntries (r : RemoteWorkers) (s : String)
    (f : RemoteWorker → RemoteWorker) :
    r.mapWorker s f
      = r.mapEntries (fun kv => if kv.1 = s then (kv.1, f kv.2) else kv) := rfl

theorem sweepLost_eq_mapEntries (r : RemoteWorkers) (now th : Nat) :
    r.sweepLost now th
      = r.mapEntries (fun kv => (kv.1, markLost now th kv.2)) := rfl

theorem mapEntries_preserves (t : String × RemoteWorker → String × RemoteWorker)
    (ht1 : ∀ kv, (t kv).1 = kv.1)
    (ht2 : ∀ kv, (t kv).2.hostname = kv.2.hostname)
    (r : RemoteWorkers) (hwf : r.Wf) (hc : r.Consistent) :
    (r.mapEntries t).Wf ∧ (r.mapEntries t).Consistent := by
  have hkeys : ∀ l : List (String × RemoteWorker),
      (l.map t).map Prod.fst = l.map Prod.fst := by
    intro l
    rw [List.map_map]
    apply List.map_congr_left
    intro kv _
    exact ht1 kv
  constructor
  · refine ⟨?_, ?_, ?_⟩
    · show ((r.workerPool.members.map t).map Prod.fst).Nodup
      rw [hkeys]
      exact hwf.1
    · show ((r.hostToWorkerPool.map _).map Prod.fst).Nodup
      rw [List.map_map]
      have : (Prod.fst ∘ fun hp : String × RoundRobinWorkerPool =>
          (hp.1, { hp.2 with members := hp.2.members.map t })) = Prod.fst := by
        funext hp
        rfl
      rw [this]
      exact hwf.2.1
    · intro hp' hmem
      rcases List.mem_map.1 hmem with ⟨hp, hhp, hback⟩
      rw [← hback]
      show ((hp.2.members.map t).map Prod.fst).Nodup
      rw [hkeys]
      exact hwf.2.2 hp hhp
  · constructor
    · intro hp' hmem kv' hkv'
      rcases List.mem_map.1 hmem with ⟨hp, hhp, hback⟩
      rw [← hback] at hkv'
      rcases List.mem_map.1 hkv' with ⟨kv, hkv, hkvback⟩
      rcases hc.1 hp hhp kv hkv with ⟨hg, hh⟩
      constructor
      · show kv' ∈ r.workerPool.members.map t
        rw [← hkvback]
        exact List.mem_map_of_mem t hg
      · rw [← hkvback, ← hback]
        show (t kv).2.hostname = hp.1
        rw [ht2 kv]
        exact hh
    · intro hp1 hmem1 hp2 hmem2 s hs1 hs2
      rcases List.mem_map.1 hmem1 with ⟨q1, hq1, hb1⟩
      rcases List.mem_map.1 hmem2 with ⟨q2, hq2, hb2⟩
      rw [← hb1] at hs1
      rw [← hb2] at hs2
      have hs1' : s ∈ q1.2.members.map Prod.fst := by
        have : s ∈ (q1.2.members.map t).map Prod.fst := hs1
        rwa [hkeys] at this
      have hs2' : s ∈ q2.2.members.map Prod.fst := by
        have : s ∈ (q2.2.members.map t).map Prod.fst := hs2
        rwa [hkeys] at this
      have := hc.2 q1 hq1 q2 hq2 s hs1' hs2'
      rw [← hb1, ← hb2]
      exact this

theorem updateInitialWait_preserves (r : RemoteWorkers) (now wd : Nat)
    (acc : List UpdateEvent) (hwf : r.Wf) (hc : r.Consistent) :
    ((r.updateInitialWait now wd acc).1).Wf ∧
    ((r.updateInitialWait now wd acc).1).Consistent :=
  ⟨wf_transfer r _ (updateInitialWait_pools r now wd acc).1
      (updateInitialWait_pools r now wd acc).2 hwf,
    consistent_transfer r _ (updateInitialWait_pools r now wd acc).1
      (updateInitialWait_pools r now wd acc).2 hc⟩

theorem ensureHostPool_lookup (r : RemoteWorkers) (h : String) :
    lookupList h ((r.ensureHostPool h).hostToWorkerPool)
      = some ((r.ensureHostPool h).hostPoolOf h) := by
  rcases hl : lookupList h r.hostToWorkerPool with _ | p
  · rw [ensureHostPool_of_none r h hl]
    unfold RemoteWorkers.hostPoolOf
    rw [show ({ r with hostToWorkerPool :=
        r.hostToWorkerPool ++ [(h, RoundRobinWorkerPool.empty h)] }
          : RemoteWorkers).hostToWorkerPool
        = r.hostToWorkerPool ++ [(h, RoundRobinWorkerPool.empty h)] from rfl]
    rw [lookupList_append_self h _ _ hl]
    rfl
  · rw [ensureHostPool_of_some r h p hl]
    unfold RemoteWorkers.hostPoolOf
    rw [hl]
    rfl

theorem ensure_host_entries (r : RemoteWorkers) (h : String) :
    ∀ hp ∈ (r.ensureHostPool h).hostToWorkerPool,
      hp ∈ r.hostToWorkerPool ∨ hp = (h, RoundRobinWorkerPool.empty h) := by
  intro hp hmem
  rcases hl : lookupList h r.hostToWorkerPool with _ | p
  · rw [ensureHostPool_of_none r h hl] at hmem
    rcases List.mem_append.1 hmem with hm | hm
    · exact Or.inl hm
    · simp at hm
      exact Or.inr (by rw [hm])
  · rw [ensureHostPool_of_some r h p hl] at hmem
    exact Or.inl hmem

theorem pool_insert_append (p : RoundRobinWorkerPool) (s : String)
    (w : RemoteWorker) (habs : s ∉ p.members.map Prod.fst) :
    (p.insert s w).members = p.members ++ [(s, w)] := by
  unfold RoundRobinWorkerPool.insert
  rw [(lookupList_none_iff s p.members).2 habs]
  rfl

theorem not_in_host_pools (r : RemoteWorkers) (s : String) (hc : r.Consistent)
    (hg : s ∉ r.workerPool.members.map Prod.fst) :
    ∀ hp ∈ r.hostToWorkerPool, s ∉ hp.2.members.map Prod.fst := by
  intro hp hhp hmem
  rcases List.mem_map.1 hmem with ⟨kv, hkv, hkey⟩
  have hglob := (hc.1 hp hhp kv hkv).1
  exact hg (by rw [← hkey]; exact List.mem_map_of_mem Prod.fst hglob)

theorem ensureHostPool_preserves (r : RemoteWorkers) (h : String)
    (hwf : r.Wf) (hc : r.Consistent) :
    (r.ensureHostPool h).Wf ∧ (r.ensureHostPool h).Consistent := by
  rcases hl : lookupList h r.hostToWorkerPool with _ | p
  · rw [ensureHostPool_of_none r h hl]
    constructor
    · refine ⟨hwf.1, ?_, ?_⟩
      · show ((r.hostToWorkerPool
            ++ [(h, RoundRobinWorkerPool.empty h)]).map Prod.fst).Nodup
        rw [List.map_append, List.nodup_append]
        refine ⟨hwf.2.1, by simp, ?_⟩
        intro a ha hb
        simp at hb
        subst hb
        exact (lookupList_none_iff _ _).1 hl ha
      · intro hp hmem
        rcases List.mem_append.1 hmem with hm | hm
        · exact hwf.2.2 hp hm
        · simp at hm
          rw [hm]
          simp [RoundRobinWorkerPool.empty]
    · constructor
      · intro hp hmem kv hkv
        rcases List.mem_append.1 hmem with hm | hm
        · exact hc.1 hp hm kv hkv
        · simp at hm
          rw [hm] at hkv
          simp [RoundRobinWorkerPool.empty] at hkv
      · intro hp1 hm1 hp2 hm2 s hs1 hs2
        rcases List.mem_append.1 hm1 with hma | hma
        · rcases List.mem_append.1 hm2 with hmb | hmb
          · exact hc.2 hp1 hma hp2 hmb s hs1 hs2
          · simp at hmb
            rw [hmb] at hs2
            simp [RoundRobinWorkerPool.empty] at hs2
        · simp at hma
          rw [hma] at hs1
          simp [RoundRobinWorkerPool.empty] at hs1
  · rw [ensureHostPool_of_some r h p hl]
    exact ⟨hwf, hc⟩

theorem setHostPool_keys (r : RemoteWorkers) (h : String)
    (p : RoundRobinWorkerPool) :
    (r.setHostPool h p).hostToWorkerPool.map Prod.fst
      = r.hostToWorkerPool.map Prod.fst := by
  unfold RemoteWorkers.setHostPool
  rw [List.map_map]
  apply List.map_congr_left
  intro hp _
  by_cases hk : hp.1 = h
  · simp [hk]
  · simp [hk]

theorem setHostPool_mem (r : RemoteWorkers) (h : String)
    (p : RoundRobinWorkerPool) :
    ∀ hp ∈ (r.setHostPool h p).hostToWorkerPool,
      ∃ hp0 ∈ r.hostToWorkerPool,
        hp = if hp0.1 = h then (h, p) else hp0 := by
  intro hp hmem
  rcases List.mem_map.1 hmem with ⟨hp0, h0, hb⟩
  exact ⟨hp0, h0, hb.symm⟩

theorem insertFresh_preserves (r : RemoteWorkers) (h s : String)
    (w : RemoteWorker) (hwf : r.Wf) (hc : r.Consistent)
    (hfresh : s ∉ r.workerPool.members.map Prod.fst)
    (hhost : w.hostname = h) :
    (({ r with workerPool := r.workerPool.insert s w
      } : RemoteWorkers).insertIntoHostPool h s w).Wf ∧
    (({ r with workerPool := r.workerPool.insert s w
      } : RemoteWorkers).insertIntoHostPool h s w).Consistent := by
  set r1 : RemoteWorkers := { r with workerPool := r.workerPool.insert s w } with hr1
  have hg1 : r1.workerPool.members = r.workerPool.members ++ [(s, w)] :=
    pool_insert_append _ _ _ hfresh
  have hwf1 : r1.Wf := by
    refine ⟨?_, hwf.2.1, hwf.2.2⟩
    show (r1.workerPool.members.map Prod.fst).Nodup
    rw [hg1, List.map_append, List.nodup_append]
    refine ⟨hwf.1, by simp, ?_⟩
    intro a ha hb
    simp at hb
    subst hb
    exact hfresh ha
  have hc1 : r1.Consistent := by
    constructor
    · intro hp hm kv hkv
      rcases hc.1 hp hm kv hkv with ⟨hgl, hh⟩
      refine ⟨?_, hh⟩
      show kv ∈ r1.workerPool.members
      rw [hg1]
      exact List.mem_append.2 (Or.inl hgl)
    · exact hc.2
  set r2 : RemoteWorkers := r1.ensureHostPool h with hr2
  have hwf2 : r2.Wf := (ensureHostPool_preserves r1 h hwf1 hc1).1
  have hc2 : r2.Consistent := (ensureHostPool_preserves r1 h hwf1 hc1).2
  have hg2 : r2.workerPool = r1.workerPool := ensureHostPool_workerPool r1 h
  have hnot2 : ∀ hp ∈ r2.hostToWorkerPool, s ∉ hp.2.members.map Prod.fst := by
    intro hp hm
    rcases ensure_host_entries r1 h hp hm with hm0 | hme
    · exact not_in_host_pools r s hc hfresh hp hm0
    · rw [hme]
      simp [RoundRobinWorkerPool.empty]
  set ph : RoundRobinWorkerPool := r2.hostPoolOf h with hph
  have hmemh : (h, ph) ∈ r2.hostToWorkerPool :=
    lookupList_some_mem _ _ _ (ensureHostPool_lookup r1 h)
  have hsph : s ∉ ph.members.map Prod.fst := hnot2 (h, ph) hmemh
  have hins : (ph.insert s w).members = ph.members ++ [(s, w)] :=
    pool_insert_append _ _ _ hsph
  show (r2.setHostPool h (ph.insert s w)).Wf ∧
    (r2.setHostPool h (ph.insert s w)).Consistent
  have hg3 : (r2.setHostPool h (ph.insert s w)).workerPool = r2.workerPool := rfl
  constructor
  · refine ⟨?_, ?_, ?_⟩
    · rw [hg3]
      exact hwf2.1
    · rw [setHostPool_keys]
      exact hwf2.2.1
    · intro hp' hmem'
      rcases setHostPool_mem r2 h _ hp' hmem' with ⟨hp0, h0, hb⟩
      by_cases hk : hp0.1 = h
      · rw [hb, if_pos hk]
        show (((ph.insert s w).members).map Prod.fst).Nodup
        rw [hins, List.map_append, List.nodup_append]
        refine ⟨hwf2.2.2 (h, ph) hmemh, by simp, ?_⟩
        intro a ha hb2
        simp at hb2
        subst hb2
        exact hsph ha
      · rw [hb, if_neg hk]
        exact hwf2.2.2 hp0 h0
  · constructor
    · intro hp' hmem' kv hkv
      rcases setHostPool_mem r2 h _ hp' hmem' with ⟨hp0, h0, hb⟩
      by_cases hk : hp0.1 = h
      · rw [hb, if_pos hk] at hkv ⊢
        rw [hins] at hkv
        rcases List.mem_append.1 hkv with hm | hm
        · rcases hc2.1 (h, ph) hmemh kv hm with ⟨hgl, hh⟩
          exact ⟨hgl, hh⟩
        · simp at hm
          subst hm
          constructor
          · show (s, w) ∈ r2.workerPool.members
            rw [hg2, hg1]
            exact List.mem_append.2 (Or.inr (by simp))
          · exact hhost
      · rw [hb, if_neg hk] at hkv ⊢
        exact hc2.1 hp0 h0 kv hkv
    · intro hp1 hm1 hp2 hm2 s' hs1 hs2
      rcases setHostPool_mem r2 h _ hp1 hm1 with ⟨q1, hq1, hb1⟩
      rcases setHostPool_mem r2 h _ hp2 hm2 with ⟨q2, hq2, hb2⟩
      have hkey : ∀ q, q ∈ r2.hostToWorkerPool →
          ∀ t ∈ ((if q.1 = h then ((h, ph.insert s w) : String × RoundRobinWorkerPool)
              else q)).2.members.map Prod.fst,
            (∃ e, e ∈ r2.hostToWorkerPool ∧ e.1 = q.1 ∧
              t ∈ e.2.members.map Prod.fst) ∨ (t = s ∧ q.1 = h) := by
        intro q hq t ht
        by_cases hk : q.1 = h
        · rw [if_pos hk] at ht
          show _ ∨ _
          have : t ∈ ((ph.members ++ [(s, w)]).map Prod.fst) := by
            rw [← hins]
            exact ht
          rw [List.map_append] at this
          rcases List.mem_append.1 this with hm | hm
          · exact Or.inl ⟨(h, ph), hmemh, by rw [hk], hm⟩
          · simp at hm
            exact Or.inr ⟨hm, hk⟩
        · rw [if_neg hk] at ht
          exact Or.inl ⟨q, hq, rfl, ht⟩
      have hfst1 : hp1.1 = q1.1 := by
        rw [hb1]
        by_cases hk : q1.1 = h
        · rw [if_pos hk, hk]
        · rw [if_neg hk]
      have hfst2 : hp2.1 = q2.1 := by
        rw [hb2]
        by_cases hk : q2.1 = h
        · rw [if_pos hk, hk]
        · rw [if_neg hk]
      rw [hb1] at hs1
      rw [hb2] at hs2
      rcases hkey q1 hq1 s' hs1 with ⟨e1, he1, hke1, hte1⟩ | ⟨hts1, hkq1⟩
      · rcases hkey q2 hq2 s' hs2 with ⟨e2, he2, hke2, hte2⟩ | ⟨hts2, hkq2⟩
        · rw [hfst1, hfst2, ← hke1, ← hke2]
          exact hc2.2 e1 he1 e2 he2 s' hte1 hte2
        · exfalso
          rw [hts2] at hte1
          exact hnot2 e1 he1 hte1
      · rcases hkey q2 hq2 s' hs2 with ⟨e2, he2, hke2, hte2⟩ | ⟨hts2, hkq2⟩
        · exfalso
          rw [hts1] at hte2
          exact hnot2 e2 he2 hte2
        · rw [hfst1, hfst2, hkq1, hkq2]

theorem setHostPool_preserves (r : RemoteWorkers) (h : String)
    (p q : RoundRobinWorkerPool)
    (hl : lookupList h r.hostToWorkerPool = some q)
    (hm : p.members = q.members)
    (hwf : r.Wf) (hc : r.Consistent) :
    (r.setHostPool h p).Wf ∧ (r.setHostPool h p).Consistent := by
  have hqmem : (h, q) ∈ r.hostToWorkerPool := lookupList_some_mem _ _ _ hl
  constructor
  · refine ⟨hwf.1, ?_, ?_⟩
    · rw [setHostPool_keys]
      exact hwf.2.1
    · intro hp' hmem'
      rcases setHostPool_mem r h p hp' hmem' with ⟨hp0, h0, hb⟩
      by_cases hk : hp0.1 = h
      · rw [hb, if_pos hk]
        show ((p.members).map Prod.fst).Nodup
        rw [hm]
        exact hwf.2.2 (h, q) hqmem
      · rw [hb, if_neg hk]
        exact hwf.2.2 hp0 h0
  · constructor
    · intro hp' hmem' kv hkv
      rcases setHostPool_mem r h p hp' hmem' with ⟨hp0, h0, hb⟩
      by_cases hk : hp0.1 = h
      · rw [hb, if_pos hk] at hkv ⊢
        have hkv' : kv ∈ q.members := by
          rw [← hm]
          exact hkv
        exact hc.1 (h, q) hqmem kv hkv'
      · rw [hb, if_neg hk] at hkv ⊢
        exact hc.1 hp0 h0 kv hkv
    · intro hp1 hm1 hp2 hm2 s' hs1 hs2
      rcases setHostPool_mem r h p hp1 hm1 with ⟨q1, hq1, hb1⟩
      rcases setHostPool_mem r h p hp2 hm2 with ⟨q2, hq2, hb2⟩
      have hkey : ∀ q0, q0 ∈ r.hostToWorkerPool →
          ∀ t ∈ ((if q0.1 = h then ((h, p) : String × RoundRobinWorkerPool)
              else q0)).2.members.map Prod.fst,
            ∃ e, e ∈ r.hostToWorkerPool ∧ e.1 = q0.1 ∧
              t ∈ e.2.members.map Prod.fst := by
        intro q0 hq0 t ht
        by_cases hk : q0.1 = h
        · rw [if_pos hk] at ht
          have ht' : t ∈ q.members.map Prod.fst := by
            rw [← hm]
            exact ht
          exact ⟨(h, q), hqmem, by rw [hk], ht'⟩
        · rw [if_neg hk] at ht
          exact ⟨q0, hq0, rfl, ht⟩
      have hfst1 : hp1.1 = q1.1 := by
        rw [hb1]
        by_cases hk : q1.1 = h
        · rw [if_pos hk, hk]
        · rw [if_neg hk]
      have hfst2 : hp2.1 = q2.1 := by
        rw [hb2]
        by_cases hk : q2.1 = h
        · rw [if_pos hk, hk]
        · rw [if_neg hk]
      rw [hb1] at hs1
      rw [hb2] at hs2
      rcases hkey q1 hq1 s' hs1 with ⟨e1, he1, hke1, hte1⟩
      rcases hkey q2 hq2 s' hs2 with ⟨e2, he2, hke2, hte2⟩
      rw [hfst1, hfst2, ← hke1, ← hke2]
      exact hc.2 e1 he1 e2 he2 s' hte1 hte2

theorem markLost_hostname (now th : Nat) (w : RemoteWorker) :
    (markLost now th w).hostname = w.hostname := by
  unfold markLost
  by_cases hcnd : th < now - w.lastHeartbeat ∧ w.health ≠ .lost
  · rw [if_pos hcnd]
  · rw [if_neg hcnd]

theorem mk0_invariant (t : Nat) :
    (RemoteWorkers.mk0 t).Wf ∧ (RemoteWorkers.mk0 t).Consistent := by
  constructor
  · refine ⟨?_, ?_, ?_⟩
    · simp [RemoteWorkers.mk0, RoundRobinWorkerPool.empty]
    · simp [RemoteWorkers.mk0]
    · intro hp hm
      simp [RemoteWorkers.mk0] at hm
  · constructor
    · intro hp hm
      simp [RemoteWorkers.mk0] at hm
    · intro hp1 h1 hp2 h2 s hs1 hs2
      simp [RemoteWorkers.mk0] at h1

theorem refreshWorker_preserves (r : RemoteWorkers) (now : Nat) (s : String)
    (hwf : r.Wf) (hc : r.Consistent) :
    (r.refreshWorker now s).Wf ∧ (r.refreshWorker now s).Consistent := by
  show ((r.mapWorker s _).Wf ∧ (r.mapWorker s _).Consistent)
  rw [mapWorker_eq_mapEntries]
  refine mapEntries_preserves _ ?_ ?_ r hwf hc
  · intro kv
    by_cases hk : kv.1 = s
    · simp [hk]
    · simp [hk]
  · intro kv
    by_cases hk : kv.1 = s
    · simp [hk]
    · simp [hk]

theorem sweepLost_preserves (r : RemoteWorkers) (now th : Nat)
    (hwf : r.Wf) (hc : r.Consistent) :
    (r.sweepLost now th).Wf ∧ (r.sweepLost now th).Consistent := by
  rw [sweepLost_eq_mapEntries]
  refine mapEntries_preserves _ ?_ ?_ r hwf hc
  · intro kv
    rfl
  · intro kv
    exact markLost_hostname now th kv.2

theorem processHeartbeat_preserves (r : RemoteWorkers) (now wd : Nat)
    (acc : List UpdateEvent) (msg : BistroWorker)
    (hwf : r.Wf) (hc : r.Consistent) :
    ((r.processHeartbeat now wd acc msg).1).Wf ∧
    ((r.processHeartbeat now wd acc msg).1).Consistent := by
  rcases hl : r.getNonConstWorker msg.shard with _ | w
  · rw [processHeartbeat_none_eq r now wd acc msg hl]
    have hfresh : msg.shard ∉ r.workerPool.members.map Prod.fst :=
      (lookupList_none_iff _ _).1 hl
    have hreg := insertFresh_preserves r msg.hostname msg.shard
      ⟨msg.hostname, now, .new, []⟩ hwf hc hfresh rfl
    exact updateInitialWait_preserves _ now wd acc hreg.1 hreg.2
  · by_cases hh : w.hostname = msg.hostname
    · rw [processHeartbeat_same_eq r now wd acc msg w hl hh]
      have hres := refreshWorker_preserves r now msg.shard hwf hc
      exact updateInitialWait_preserves _ now wd acc hres.1 hres.2
    · rw [processHeartbeat_mismatch_eq r now wd acc msg w hl hh]
      exact updateInitialWait_preserves r now wd _ hwf hc

theorem updateState_preserves (r : RemoteWorkers) (now th wd : Nat)
    (acc : List UpdateEvent) (hwf : r.Wf) (hc : r.Consistent) :
    ((r.updateState now th wd acc).1).Wf ∧
    ((r.updateState now th wd acc).1).Consistent := by
  have hs := sweepLost_preserves r now th hwf hc
  exact updateInitialWait_preserves _ now wd _ hs.1 hs.2

theorem initializeRunningTasks_preserves (r : RemoteWorkers)
    (msg : BistroWorker) (tasks : List String) (r' : RemoteWorkers)
    (hwf : r.Wf) (hc : r.Consistent)
    (hok : r.initializeRunningTasks msg tasks = .ok r') :
    r'.Wf ∧ r'.Consistent := by
  unfold RemoteWorkers.initializeRunningTasks at hok
  rcases hab : r.mutableWorkerOrAbort msg.shard with m | w
  · rw [hab] at hok
    cases hok
  · rw [hab] at hok
    have hok' : r.mapWorker msg.shard
        (fun v => { v with runningTasks := tasks }) = r' := by
      cases hok
      rfl
    rw [← hok', mapWorker_eq_mapEntries]
    refine mapEntries_preserves _ ?_ ?_ r hwf hc
    · intro kv
      by_cases hk : kv.1 = msg.shard
      · simp [hk]
      · simp [hk]
    · intro kv
      by_cases hk : kv.1 = msg.shard
      · simp [hk]
      · simp [hk]

theorem rotateGlobal_preserves (r : RemoteWorkers)
    (hwf : r.Wf) (hc : r.Consistent) :
    ((r.getNextWorkerGlobal).2).Wf ∧ ((r.getNextWorkerGlobal).2).Consistent := by
  have hmembers : ((r.getNextWorkerGlobal).2).workerPool.members
      = r.workerPool.members := getNextWorker_members r.workerPool
  constructor
  · refine ⟨?_, hwf.2.1, hwf.2.2⟩
    show (((r.getNextWorkerGlobal).2).workerPool.members.map Prod.fst).Nodup
    rw [hmembers]
    exact hwf.1
  · constructor
    · intro hp hm kv hkv
      rcases hc.1 hp hm kv hkv with ⟨hg, hh⟩
      refine ⟨?_, hh⟩
      show kv ∈ ((r.getNextWorkerGlobal).2).workerPool.members
      rw [hmembers]
      exact hg
    · exact hc.2

theorem rotateByHost_preserves (r : RemoteWorkers) (h : String)
    (hwf : r.Wf) (hc : r.Consistent) :
    ((r.getNextWorkerByHost h).2).Wf ∧
    ((r.getNextWorkerByHost h).2).Consistent := by
  have he := ensureHostPool_preserves r h hwf hc
  exact setHostPool_preserves (r.ensureHostPool h) h
    (((r.ensureHostPool h).hostPoolOf h).getNextWorker).2
    ((r.ensureHostPool h).hostPoolOf h)
    (ensureHostPool_lookup r h) (getNextWorker_members _) he.1 he.2

/-- C1: the two-level consistency invariant — every worker in any host pool
is in the global pool under the same shard id with the same (shared) worker
object, its recorded hostname equals the host pool's key, and a shard id
appears in at most one host pool — holds at construction and is preserved
by every registry operation: `processHeartbeat`, `updateState`,
`initializeRunningTasks`, global and by-host selection, and the enumeration
accessor (the pure lookups `getWorker` / `mutableWorkerOrThrow` /
`mutableWorkerOrAbort` return values without producing a new state, so they
preserve it trivially). -/
theorem C1_two_level_consistency (r : RemoteWorkers)
    (hwf : r.Wf) (hc : r.Consistent) :
    (∀ t, (RemoteWorkers.mk0 t).Wf ∧ (RemoteWorkers.mk0 t).Consistent) ∧
    (∀ now wd acc msg, ((r.processHeartbeat now wd acc msg).1).Wf ∧
        ((r.processHeartbeat now wd acc msg).1).Consistent) ∧
    (∀ now th wd acc, ((r.updateState now th wd acc).1).Wf ∧
        ((r.updateState now th wd acc).1).Consistent) ∧
    (∀ msg tasks r', r.initializeRunningTasks msg tasks = .ok r' →
        r'.Wf ∧ r'.Consistent) ∧
    (((r.getNextWorkerGlobal).2).Wf ∧
        ((r.getNextWorkerGlobal).2).Consistent) ∧
    (∀ h, ((r.getNextWorkerByHost h).2).Wf ∧
        ((r.getNextWorkerByHost h).2).Consistent ∧
        ((r.hostWorkerPool h).2).Wf ∧ ((r.hostWorkerPool h).2).Consistent) :=
  ⟨mk0_invariant,
    fun now wd acc msg => processHeartbeat_preserves r now wd acc msg hwf hc,
    fun now th wd acc => updateState_preserves r now th wd acc hwf hc,
    fun msg tasks r' hok =>
      initializeRunningTasks_preserves r msg tasks r' hwf hc hok,
    rotateGlobal_preserves r hwf hc,
    fun h => ⟨(rotateByHost_preserves r h hwf hc).1,
      (rotateByHost_preserves r h hwf hc).2,
      (ensureHostPool_preserves r h hwf hc).1,
      (ensureHostPool_preserves r h hwf hc).2⟩⟩

/-- Witness for C1: the invariant holds at the concrete registry `regA` and
is preserved by every operation from there. -/
theorem C1_witness :
    (regA.Wf ∧ regA.Consistent) ∧
    ((∀ t, (RemoteWorkers.mk0 t).Wf ∧ (RemoteWorkers.mk0 t).Consistent) ∧
    (∀ now wd acc msg, ((regA.processHeartbeat now wd acc msg).1).Wf ∧
        ((regA.processHeartbeat now wd acc msg).1).Consistent) ∧
    (∀ now th wd acc, ((regA.updateState now th wd acc).1).Wf ∧
        ((regA.updateState now th wd acc).1).Consistent) ∧
    (∀ msg tasks r', regA.initializeRunningTasks msg tasks = .ok r' →
        r'.Wf ∧ r'.Consistent) ∧
    (((regA.getNextWorkerGlobal).2).Wf ∧
        ((regA.getNextWorkerGlobal).2).Consistent) ∧
    (∀ h, ((regA.getNextWorkerByHost h).2).Wf ∧
        ((regA.getNextWorkerByHost h).2).Consistent ∧
        ((regA.hostWorkerPool h).2).Wf ∧
        ((regA.hostWorkerPool h).2).Consistent)) :=
  ⟨⟨by unfold RemoteWorkers.Wf; decide, by unfold RemoteWorkers.Consistent; decide⟩,
    C1_two_level_consistency regA (by unfold RemoteWorkers.Wf; decide)
      (by unfold RemoteWorkers.Consistent; decide)⟩
